import Mathlib

/-!
# xxhbench.c : conformance check and throughput benchmark for XXH32 / XXH64

A shallow embedding of `src/xxhbench.c` and the properties of its specification.

* Bytes and 32-bit and 64-bit machine words are natural numbers, reduced with an explicit
  `% 2 ^ w` wherever the C code stores into a fixed-width object.  Values of type `clock_t`
  are integers.  Byte arrays are lists of bytes; a pointer is an array with an offset.
* The hash functions of `xxhash.h` are not part of this file: every function that calls them
  takes a `HashProvider`, the interface of spec section 4.4, as a parameter.
* A piece of the program is a function of the readings that `clock()` will return.  Running
  it yields how it ended (returned, left through `exit`, or ran out of readings), the calls
  it made in order, and the readings left.  The result of `malloc` and the macro
  `CLOCKS_PER_SEC` are parameters.
* A `double` is an exact rational, an infinity or a NaN: division by zero and comparison with
  a NaN behave as in IEEE-754 arithmetic, rounding is not represented.

The definitions come first; the lemmas and the properties follow.
-/

namespace XXHBench

/-! ## The fixture buffer of `check` (xxhbench.c lines 155-165) -/

/-- The macro `BUFSZ` of `check` (line 155). -/
def BUFSZ : Nat := 101

/-- The local constant `prime` of `check` (line 159). -/
def prime : Nat := 2654435761

/-- The loop `for (i = 0; i < BUFSZ; i++) { buf[i] = byte_gen >> 24; byte_gen *= byte_gen; }`
of `check` (lines 162-165).  The first argument is the number of iterations still to run,
`BUFSZ - i`; `byte_gen` is a `uint32_t`, `buf[i]` a `uint8_t`. -/
def check_fill : Nat → Nat → Nat → List Nat → List Nat
  | 0, _, _, buf => buf
  | n + 1, i, byte_gen, buf =>
      check_fill n (i + 1) ((byte_gen * byte_gen) % 2 ^ 32) (buf.set i ((byte_gen >>> 24) % 2 ^ 8))

/-- The array `buf` of `check` after the fill loop, when its storage held `init` before. -/
def check_buf (init : List Nat) : List Nat :=
  check_fill (BUFSZ - 0) 0 prime init

/-- The recurrence of spec section 4.1, in the spec's words: the running value starts at the
prime `2654435761` and is squared with unsigned 32-bit wraparound at every step. -/
def g : Nat → Nat
  | 0 => 2654435761
  | i + 1 => (g i * g i) % 2 ^ 32

/-! ## Memory objects and pointers -/

/-- A `const void*`: the byte object pointed into and the offset within it. -/
structure Ptr where
  base : List Nat
  off : Nat
deriving DecidableEq

/-- The null pointer: there is no object behind it. -/
def NULL : Ptr := ⟨[], 0⟩

/-- Pointer arithmetic `p + n`, counted in bytes as xxhbench.c does on `void*`. -/
def Ptr.add (p : Ptr) (n : Nat) : Ptr := ⟨p.base, p.off + n⟩

/-- The bytes `p[0..len)` that a callee reads through `p`. -/
def Ptr.read (p : Ptr) (len : Nat) : List Nat := (p.base.drop p.off).take len

/-- The library call `memset(buf, c, n)` on the object `buf`: the first `n` bytes become `c`,
the bytes from index `n` on keep their values. -/
def memset (buf : List Nat) (c n : Nat) : List Nat :=
  List.replicate n c ++ buf.drop n

/-! ## The hash provider -/

/-- Modelled from the spec: the Hash Provider of spec sections 2 and 4.4, that is the functions
`XXH32`, `XXH32_reset`, `XXH32_update`, `XXH32_digest` and their 64-bit siblings declared in
`xxhash.h`, which is not among the sources.  The spec fixes their interface only: a one-shot
function of the bytes and the seed, and a state that is created by reset, fed by update and
read by digest.  The bytes handed over are the bytes the callee reads through the pointer. -/
structure HashProvider where
  State32 : Type
  State64 : Type
  XXH32 : List Nat → Nat → Nat
  XXH32_reset : Nat → State32
  XXH32_update : State32 → List Nat → State32
  XXH32_digest : State32 → Nat
  XXH64 : List Nat → Nat → Nat
  XXH64_reset : Nat → State64
  XXH64_update : State64 → List Nat → State64
  XXH64_digest : State64 → Nat

/-- Modelled from the spec: the contract of spec section 4.4 for width 32.  The streaming digest
depends only on the seed and on the concatenation of the slices passed to update, and it
equals the one-shot hash of that concatenation. -/
def HashProvider.Contract32 (P : HashProvider) : Prop :=
  ∀ (seed : Nat) (chunks : List (List Nat)),
    P.XXH32_digest (chunks.foldl P.XXH32_update (P.XXH32_reset seed)) = P.XXH32 chunks.flatten seed

/-- Modelled from the spec: the contract of spec section 4.4 for width 64. -/
def HashProvider.Contract64 (P : HashProvider) : Prop :=
  ∀ (seed : Nat) (chunks : List (List Nat)),
    P.XXH64_digest (chunks.foldl P.XXH64_update (P.XXH64_reset seed)) = P.XXH64 chunks.flatten seed

/-! ## Values of type `double` -/

/-- A value of type `double`: a finite number, an infinity or a NaN.  Finite values are exact
rationals: the rounding of IEEE-754 arithmetic and the sign of zero are not represented. -/
inductive Dbl where
  | fin (q : ℚ)
  | pinf
  | ninf
  | nan
deriving DecidableEq

/-- Conversion `(double)i` of a signed integer. -/
def Dbl.ofInt (i : Int) : Dbl := .fin i

/-- Conversion `(double)n` of an unsigned integer. -/
def Dbl.ofNat (n : Nat) : Dbl := .fin n

/-- Division `a / b` of doubles: a non-zero finite value divided by zero is an infinity,
zero divided by zero is a NaN, a finite value divided by an infinity is zero. -/
def Dbl.div : Dbl → Dbl → Dbl
  | .fin a, .fin b =>
      if b = 0 then (if a = 0 then .nan else if 0 < a then .pinf else .ninf) else .fin (a / b)
  | .fin _, .pinf => .fin 0
  | .fin _, .ninf => .fin 0
  | .pinf, .fin b => if 0 ≤ b then .pinf else .ninf
  | .ninf, .fin b => if 0 ≤ b then .ninf else .pinf
  | _, _ => .nan

/-- Comparison `a < b` of doubles; it is false as soon as one side is a NaN. -/
def Dbl.lt : Dbl → Dbl → Bool
  | .fin a, .fin b => decide (a < b)
  | .fin _, .pinf => true
  | .ninf, .fin _ => true
  | .ninf, .pinf => true
  | _, _ => false

/-- Order `a ≤ b` on doubles that are not NaN. -/
def Dbl.le : Dbl → Dbl → Bool
  | .fin a, .fin b => decide (a ≤ b)
  | .fin _, .pinf => true
  | .ninf, .fin _ => true
  | .ninf, .pinf => true
  | .pinf, .pinf => true
  | .ninf, .ninf => true
  | _, _ => false

/-! ## Calls, traces and runs -/

/-- An argument of a `printf` call. -/
inductive Arg where
  | str (s : String)
  | int (i : Int)
  | uint (n : Nat)
  | dbl (d : Dbl)
deriving DecidableEq

/-- A call recorded in the trace of a run: a call of `printf`, `exit`, `clock`, `malloc` or
`free`, or a call into the hash provider with its arguments.  (`memset` and `strcmp` are not
recorded: they are represented by their effect and their result.) -/
inductive Event where
  | printf (fmt : String) (args : List Arg)
  | exit (status : Int)
  | clock (t : Int)
  | malloc (size : Nat)
  | free
  | XXH32 (buf : Ptr) (len seed : Nat)
  | XXH32_reset (seed : Nat)
  | XXH32_update (buf : Ptr) (len : Nat)
  | XXH32_digest
  | XXH64 (buf : Ptr) (len seed : Nat)
  | XXH64_reset (seed : Nat)
  | XXH64_update (buf : Ptr) (len : Nat)
  | XXH64_digest
deriving DecidableEq

/-- Whether a call is a call of a one-shot hash function. -/
def Event.isHash : Event → Bool
  | .XXH32 _ _ _ => true
  | .XXH64 _ _ _ => true
  | _ => false

/-- How a run ends: the function returned a value, the process left through `exit`, or the
supplied clock readings ran out before the function returned. -/
inductive Status (α : Type) where
  | done (a : α)
  | exited (code : Int)
  | starved
deriving DecidableEq

/-- The result of running a piece of the program: how it ended, the calls it made in order,
and the clock readings it has not consumed. -/
structure Run (α : Type) where
  status : Status α
  trace : List Event
  clk : List Int
deriving DecidableEq

/-- A computation that makes calls but reads no clock and cannot exit: the calls made
and the value. -/
def Traced (α : Type) : Type := List Event × α

/-- Sequencing of traced computations. -/
def Traced.bind {α β : Type} (m : Traced α) (f : α → Traced β) : Traced β :=
  ((m.1 ++ (f m.2).1), (f m.2).2)

instance : Monad Traced where
  pure a := ([], a)
  bind := Traced.bind

/-- A piece of the program: a function of the readings that `clock()` will return, in order. -/
def Prog (α : Type) : Type := List Int → Run α

/-- Sequencing of program pieces: the second one runs only if the first one returned. -/
def Prog.bind {α β : Type} (m : Prog α) (f : α → Prog β) : Prog β := fun c =>
  match (m c).status with
  | .done a => ⟨(f a (m c).clk).status, (m c).trace ++ (f a (m c).clk).trace, (f a (m c).clk).clk⟩
  | .exited n => ⟨.exited n, (m c).trace, (m c).clk⟩
  | .starved => ⟨.starved, (m c).trace, (m c).clk⟩

instance : Monad Prog where
  pure a := fun c => ⟨.done a, [], c⟩
  bind := Prog.bind

/-- A traced computation as a program piece. -/
def Traced.run {α : Type} (t : Traced α) : Prog α := fun c => ⟨.done t.2, t.1, c⟩

instance : MonadLift Traced Prog where
  monadLift t := t.run

/-- The library call `printf(fmt, args...)`. -/
def printf (fmt : String) (args : List Arg) : Prog Unit :=
  fun c => ⟨.done (), [.printf fmt args], c⟩

/-- The library call `exit(status)`: it does not return. -/
def exit {α : Type} (status : Int) : Prog α :=
  fun c => ⟨.exited status, [.exit status], c⟩

/-- The library call `clock()`: the next reading. -/
def clock : Prog Int := fun c =>
  match c with
  | [] => ⟨.starved, [], []⟩
  | t :: c => ⟨.done t, [.clock t], c⟩

/-- The call `malloc(size)`; its result is supplied by the caller of the model. -/
def malloc (size : Nat) : Prog Unit :=
  fun c => ⟨.done (), [.malloc size], c⟩

/-- The call `free(buf)`. -/
def free : Prog Unit :=
  fun c => ⟨.done (), [.free], c⟩

/-- The call `XXH32(buf, len, seed)`; the result is a 32-bit value. -/
def XXH32 (P : HashProvider) (buf : Ptr) (len seed : Nat) : Traced Nat :=
  ([.XXH32 buf len seed], P.XXH32 (buf.read len) seed % 2 ^ 32)

/-- The call `XXH32_reset(&state, seed)`; the value is the new content of `state`. -/
def XXH32_reset (P : HashProvider) (seed : Nat) : Traced P.State32 :=
  ([.XXH32_reset seed], P.XXH32_reset seed)

/-- The call `XXH32_update(&state, buf, len)`; the value is the new content of `state`. -/
def XXH32_update (P : HashProvider) (state : P.State32) (buf : Ptr) (len : Nat) :
    Traced P.State32 :=
  ([.XXH32_update buf len], P.XXH32_update state (buf.read len))

/-- The call `XXH32_digest(&state)`; the result is a 32-bit value. -/
def XXH32_digest (P : HashProvider) (state : P.State32) : Traced Nat :=
  ([.XXH32_digest], P.XXH32_digest state % 2 ^ 32)

/-- The call `XXH64(buf, len, seed)`; the result is a 64-bit value. -/
def XXH64 (P : HashProvider) (buf : Ptr) (len seed : Nat) : Traced Nat :=
  ([.XXH64 buf len seed], P.XXH64 (buf.read len) seed % 2 ^ 64)

/-- The call `XXH64_reset(&state, seed)`; the value is the new content of `state`. -/
def XXH64_reset (P : HashProvider) (seed : Nat) : Traced P.State64 :=
  ([.XXH64_reset seed], P.XXH64_reset seed)

/-- The call `XXH64_update(&state, buf, len)`; the value is the new content of `state`. -/
def XXH64_update (P : HashProvider) (state : P.State64) (buf : Ptr) (len : Nat) :
    Traced P.State64 :=
  ([.XXH64_update buf len], P.XXH64_update state (buf.read len))

/-- The call `XXH64_digest(&state)`; the result is a 64-bit value. -/
def XXH64_digest (P : HashProvider) (state : P.State64) : Traced Nat :=
  ([.XXH64_digest], P.XXH64_digest state % 2 ^ 64)

/-! ## The timing harness (xxhbench.c lines 10-100) -/

/-- The enumeration `xxh_alg_enum` (lines 10-15). -/
inductive xxh_alg_enum where
  | xxh_alg_32
  | xxh_alg_32u
  | xxh_alg_64
  | xxh_alg_64u
deriving DecidableEq

/-- The constant `g_bufsz` (line 17). -/
def g_bufsz : Nat := 100 * 1024

/-- The constant `g_iters` (line 18). -/
def g_iters : Nat := 3

/-- The function `clock_span` (lines 20-23). -/
def clock_span (start : Int) : Prog Int := do
  let t ← clock
  pure (t - start)

/-- The function `bench_xxh32` (lines 25-28); the result is a `uint32_t`. -/
def bench_xxh32 (P : HashProvider) (buf : Ptr) (len seed : Nat) : Traced Nat :=
  XXH32 P buf len seed

/-- The function `bench_xxh64` (lines 30-33); the 64-bit digest is cut to the `uint32_t`
result. -/
def bench_xxh64 (P : HashProvider) (buf : Ptr) (len seed : Nat) : Traced Nat := do
  let v ← XXH64 P buf len seed
  pure (v % 2 ^ 32)

/-- The local variable `perloop` of `bench_xxh` (line 38). -/
def perloop : Nat := 100

/-- The inner loop `for (j = 0; j < perloop; j++) r += h(buf, len, j);` of `bench_xxh`
(lines 53-54).  The first argument is the number of iterations still to run, `perloop - j`;
`r` is a `uint32_t`. -/
def bench_batch (h : Ptr → Nat → Nat → Traced Nat) (buf : Ptr) (len : Nat) :
    Nat → Nat → Nat → Traced Nat
  | 0, _, r => pure r
  | n + 1, j, r => do
      let v ← h buf len j
      bench_batch h buf len n (j + 1) ((r + v) % 2 ^ 32)

/-- The loop `while (clock() == start);` of `bench_xxh` (line 48). -/
def bench_spin (start : Int) : Prog Unit
  | [] => ⟨.starved, [], []⟩
  | t :: c =>
      if t = start then
        ⟨(bench_spin start c).status, .clock t :: (bench_spin start c).trace,
          (bench_spin start c).clk⟩
      else ⟨.done (), [.clock t], c⟩

/-- The loop `while (clock_span(start) < CLOCKS_PER_SEC) { ...; count += perloop; }` of
`bench_xxh` (lines 51-56), started with the given `count` and `r`; it returns their final
values.  `count` is a `uint32_t`.  `CPS` is the macro `CLOCKS_PER_SEC` of `<time.h>`. -/
def bench_timed (CPS : Int) (h : Ptr → Nat → Nat → Traced Nat) (buf : Ptr) (len : Nat)
    (start : Int) : Nat → Nat → Prog (Nat × Nat)
  | _, _, [] => ⟨.starved, [], []⟩
  | count, r, t :: c =>
      if t - start < CPS then
        let b := bench_batch h buf len (perloop - 0) 0 r
        let rest := bench_timed CPS h buf len start ((count + perloop) % 2 ^ 32) b.2 c
        ⟨rest.status, .clock t :: (b.1 ++ rest.trace), rest.clk⟩
      else ⟨.done (count, r), [.clock t], c⟩

/-- What one trial of `bench_xxh` measured: the final `count` and `r` and the value of
`times`. -/
structure Sample where
  count : Nat
  r : Nat
  times : Dbl
deriving DecidableEq

/-- The body of the trial loop of `bench_xxh` up to the computation of `times`
(lines 43-61), for trial number `i`. -/
def bench_trial (CPS : Int) (h : Ptr → Nat → Nat → Traced Nat) (name : String) (buf : Ptr)
    (len : Nat) (i : Nat) : Prog Sample := do
  printf "%1i-%-17.17s : %10u ->\r" [.int i, .str name, .uint (len % 2 ^ 32)]
  let start ← clock
  bench_spin start
  let start ← clock
  let (count, r) ← bench_timed CPS h buf len start 0 0
  if r = 0 then
    printf "." []
  let span ← clock_span start
  let times := ((Dbl.ofInt span).div (Dbl.ofInt CPS)).div (Dbl.ofNat count)
  pure ⟨count, r, times⟩

/-- The initial value `100000000.` of `fastest` (line 39). -/
def fastest_init : Dbl := .fin 100000000

/-- The update `if (times < fastest) fastest = times;` (lines 62-63). -/
def fastest_update (fastest times : Dbl) : Dbl :=
  if times.lt fastest then times else fastest

/-- The value of `fastest` after the three trials whose per-call times were `t1`, `t2`, `t3`
(lines 39 and 62-63). -/
def fastest_of (t1 t2 t3 : Dbl) : Dbl :=
  fastest_update (fastest_update (fastest_update fastest_init t1) t2) t3

/-- The expression `((double)len/(1<<20))/fastest` (lines 65 and 68). -/
def throughput (len : Nat) (fastest : Dbl) : Dbl :=
  ((Dbl.ofNat len).div (Dbl.ofInt (1 <<< 20))).div fastest

/-- The loop `for (i = 1; i <= g_iters; i++)` of `bench_xxh` (lines 42-66).  The first
argument is the number of trials still to run, `g_iters + 1 - i`; the value is the final
`fastest`. -/
def bench_trials (CPS : Int) (h : Ptr → Nat → Nat → Traced Nat) (name : String) (buf : Ptr)
    (len : Nat) : Nat → Nat → Dbl → Prog Dbl
  | 0, _, fastest => pure fastest
  | n + 1, i, fastest => do
      let s ← bench_trial CPS h name buf len i
      let fastest := fastest_update fastest s.times
      printf "%1i-%-17.17s : %10u -> %7.1f MB/s\r"
        [.int i, .str name, .uint (len % 2 ^ 32), .dbl (throughput len fastest)]
      bench_trials CPS h name buf len n (i + 1) fastest

/-- The function `bench_xxh` (lines 35-69). -/
def bench_xxh (CPS : Int) (h : Ptr → Nat → Nat → Traced Nat) (name : String) (buf : Ptr)
    (len : Nat) : Prog Unit := do
  printf "\r%79s\r" [.str ""]
  let fastest ← bench_trials CPS h name buf len (g_iters + 1 - 1) 1 fastest_init
  printf "%-19.19s : %10u -> %7.1f MB/s  \n"
    [.str name, .uint (len % 2 ^ 32), .dbl (throughput len fastest)]

/-- The function `bench` (lines 71-100).  `heap` is what `malloc(g_bufsz+3)` returns: `none`
for a null pointer, otherwise the block with the contents it happens to hold. -/
def bench (P : HashProvider) (CPS : Int) (heap : Option (List Nat)) (alg : xxh_alg_enum) :
    Prog Int := do
  malloc (g_bufsz + 3)
  match heap with
  | none => do
      printf "\nError: not enough memory!\n" []
      pure 1
  | some block => do
      let buf : Ptr := ⟨memset block 0x5A g_bufsz, 0⟩
      printf "\rSample of %u KB...\n" [.uint ((g_bufsz >>> 10) % 2 ^ 32)]
      match alg with
      | .xxh_alg_32 => bench_xxh CPS (bench_xxh32 P) "XXH32" buf g_bufsz
      | .xxh_alg_32u => bench_xxh CPS (bench_xxh32 P) "XXH32 unaligned" (buf.add 1) g_bufsz
      | .xxh_alg_64 => bench_xxh CPS (bench_xxh64 P) "XXH64" buf g_bufsz
      | .xxh_alg_64u => bench_xxh CPS (bench_xxh64 P) "XXH64 unaligned" (buf.add 3) g_bufsz
      free
      pure 0

/-! ## The correctness oracle (xxhbench.c lines 102-186) -/

/-- The function `check_result` (lines 102-109).  The macro `PRIu64` of `<inttypes.h>` stays
symbolic in the format string. -/
def check_result (r1 r2 : Nat) : Prog Unit := do
  if r1 ≠ r2 then
    printf "\nERROR : 64-bits values non equals   !!!!!   \n" []
    printf "\n %PRIu64!= %PRIu64\n" [.uint r1, .uint r2]
    exit 1

/-- The loop `for (pos=0; pos<len; pos++) XXH32_update(&state, buf+pos, 1);` of `check32`
(lines 126-127).  The first argument is the number of iterations still to run, `len - pos`;
the value is the final content of `state`. -/
def check32_loop (P : HashProvider) (buf : Ptr) :
    Nat → Nat → P.State32 → Traced P.State32
  | 0, _, state => pure state
  | n + 1, pos, state => do
      let state ← XXH32_update P state (buf.add pos) 1
      check32_loop P buf n (pos + 1) state

/-- The function `check32` (lines 111-130); `hash` is a `uint32_t`. -/
def check32 (P : HashProvider) (buf : Ptr) (len seed truth : Nat) : Prog Unit := do
  let hash ← XXH32 P buf len seed
  check_result hash truth
  let state ← XXH32_reset P seed
  let state ← XXH32_update P state buf len
  let hash ← XXH32_digest P state
  check_result hash truth
  let state ← XXH32_reset P seed
  let state ← check32_loop P buf (len - 0) 0 state
  let hash ← XXH32_digest P state
  check_result hash truth

/-- The loop `for (pos=0; pos<len; pos++) XXH64_update(&state, buf+pos, 1);` of `check64`
(lines 147-148). -/
def check64_loop (P : HashProvider) (buf : Ptr) :
    Nat → Nat → P.State64 → Traced P.State64
  | 0, _, state => pure state
  | n + 1, pos, state => do
      let state ← XXH64_update P state (buf.add pos) 1
      check64_loop P buf n (pos + 1) state

/-- The function `check64` (lines 132-151); `hash` is a `uint64_t`. -/
def check64 (P : HashProvider) (buf : Ptr) (len seed truth : Nat) : Prog Unit := do
  let hash ← XXH64 P buf len seed
  check_result hash truth
  let state ← XXH64_reset P seed
  let state ← XXH64_update P state buf len
  let hash ← XXH64_digest P state
  check_result hash truth
  let state ← XXH64_reset P seed
  let state ← check64_loop P buf (len - 0) 0 state
  let hash ← XXH64_digest P state
  check_result hash truth

/-- The function `check` (lines 153-186).  The storage of the local array `buf` is taken to
hold zeros before the fill loop; `check_buf` does not depend on that choice. -/
def check (P : HashProvider) : Prog Unit := do
  let buf : Ptr := ⟨check_buf (List.replicate BUFSZ 0), 0⟩
  check32 P NULL 0 0 0x02CC5D05
  check32 P NULL 0 prime 0x36B78AE7
  check32 P buf 1 0 0xB85CBEE5
  check32 P buf 1 prime 0xD5845D64
  check32 P buf 14 0 0xE5AA0AB4
  check32 P buf 14 prime 0x4481951D
  check32 P buf BUFSZ 0 0x1F1AA412
  check32 P buf BUFSZ prime 0x498EC8E2
  check64 P NULL 0 0 0xEF46DB3751D8E999
  check64 P NULL 0 prime 0xAC75FDA2929B17EF
  check64 P buf 1 0 0x4FCE394CC88952D8
  check64 P buf 1 prime 0x739840CB819FA723
  check64 P buf 14 0 0xCFFA8DB881BC3A3D
  check64 P buf 14 prime 0x5B9611585EFCC9CB
  check64 P buf BUFSZ 0 0x0EAB543384F878AD
  check64 P buf BUFSZ prime 0xCAA65939306F1E21
  printf "Sanity check -- all tests ok\n" []

/-! ## The dispatcher (xxhbench.c lines 188-222) -/

/-- The function `usage` (lines 188-198). -/
def usage (exename : String) : Prog Int := do
  printf "Usage: %s [arg]\n" [.str exename]
  printf "Arguments :\n" []
  printf "  check - validate checksum result\n" []
  printf "  32    - benchmark 32bits aligned\n" []
  printf "  32u   - benchmark 32bits unaligned\n" []
  printf "  64    - benchmark 64bits aligned\n" []
  printf "  64u   - benchmark 64bits unaligned\n" []
  pure 1

/-- The function `main` (lines 200-222).  `argv` holds the `argc` strings of the invocation,
the program name first; `strcmp(a, b) == 0` is equality of the strings. -/
def main (P : HashProvider) (CPS : Int) (heap : Option (List Nat)) (argv : List String) :
    Prog Int :=
  if argv.length ≠ 2 then usage (argv.getD 0 "")
  else
    let param := argv.getD 1 ""
    if param = "check" then do
      check P
      pure 0
    else if param = "32" then do
      let _ ← bench P CPS heap .xxh_alg_32
      pure 0
    else if param = "32u" then do
      let _ ← bench P CPS heap .xxh_alg_32u
      pure 0
    else if param = "64" then do
      let _ ← bench P CPS heap .xxh_alg_64
      pure 0
    else if param = "64u" then do
      let _ ← bench P CPS heap .xxh_alg_64u
      pure 0
    else usage (argv.getD 0 "")

/-! ## Tables used to state the properties -/

/-- The one-shot computation of `check32` (line 117). -/
def check32_oneshot (P : HashProvider) (buf : Ptr) (len seed : Nat) : Traced Nat :=
  XXH32 P buf len seed

/-- The single-update computation of `check32` (lines 120-122). -/
def check32_single (P : HashProvider) (buf : Ptr) (len seed : Nat) : Traced Nat := do
  let state ← XXH32_reset P seed
  let state ← XXH32_update P state buf len
  XXH32_digest P state

/-- The byte-at-a-time computation of `check32` (lines 125-128). -/
def check32_bytes (P : HashProvider) (buf : Ptr) (len seed : Nat) : Traced Nat := do
  let state ← XXH32_reset P seed
  let state ← check32_loop P buf (len - 0) 0 state
  XXH32_digest P state

/-- The one-shot computation of `check64` (line 138). -/
def check64_oneshot (P : HashProvider) (buf : Ptr) (len seed : Nat) : Traced Nat :=
  XXH64 P buf len seed

/-- The single-update computation of `check64` (lines 141-143). -/
def check64_single (P : HashProvider) (buf : Ptr) (len seed : Nat) : Traced Nat := do
  let state ← XXH64_reset P seed
  let state ← XXH64_update P state buf len
  XXH64_digest P state

/-- The byte-at-a-time computation of `check64` (lines 146-149). -/
def check64_bytes (P : HashProvider) (buf : Ptr) (len seed : Nat) : Traced Nat := do
  let state ← XXH64_reset P seed
  let state ← check64_loop P buf (len - 0) 0 state
  XXH64_digest P state

/-- The comparisons of `check32` in the order it makes them: each computation with the value
it is compared to. -/
def check32_list (P : HashProvider) (buf : Ptr) (len seed truth : Nat) :
    List (Traced Nat × Nat) :=
  [(check32_oneshot P buf len seed, truth), (check32_single P buf len seed, truth),
    (check32_bytes P buf len seed, truth)]

/-- The comparisons of `check64` in the order it makes them. -/
def check64_list (P : HashProvider) (buf : Ptr) (len seed truth : Nat) :
    List (Traced Nat × Nat) :=
  [(check64_oneshot P buf len seed, truth), (check64_single P buf len seed, truth),
    (check64_bytes P buf len seed, truth)]

/-- The comparisons of `check` in the order it makes them: the sixteen vectors of lines
167-183 in table order, three comparisons each. -/
def check_list (P : HashProvider) : List (Traced Nat × Nat) :=
  let buf : Ptr := ⟨check_buf (List.replicate BUFSZ 0), 0⟩
  check32_list P NULL 0 0 0x02CC5D05
  ++ check32_list P NULL 0 prime 0x36B78AE7
  ++ check32_list P buf 1 0 0xB85CBEE5
  ++ check32_list P buf 1 prime 0xD5845D64
  ++ check32_list P buf 14 0 0xE5AA0AB4
  ++ check32_list P buf 14 prime 0x4481951D
  ++ check32_list P buf BUFSZ 0 0x1F1AA412
  ++ check32_list P buf BUFSZ prime 0x498EC8E2
  ++ check64_list P NULL 0 0 0xEF46DB3751D8E999
  ++ check64_list P NULL 0 prime 0xAC75FDA2929B17EF
  ++ check64_list P buf 1 0 0x4FCE394CC88952D8
  ++ check64_list P buf 1 prime 0x739840CB819FA723
  ++ check64_list P buf 14 0 0xCFFA8DB881BC3A3D
  ++ check64_list P buf 14 prime 0x5B9611585EFCC9CB
  ++ check64_list P buf BUFSZ 0 0x0EAB543384F878AD
  ++ check64_list P buf BUFSZ prime 0xCAA65939306F1E21

/-- Running a list of comparisons one after the other: compute, then `check_result`. -/
def check_seq : List (Traced Nat × Nat) → Prog Unit
  | [] => pure ()
  | c :: rest => do
      let hash ← c.1.run
      check_result hash c.2
      check_seq rest

/-- The three calls that `check_result` makes when its arguments differ (lines 105-107). -/
def check_report (r1 r2 : Nat) : List Event :=
  [.printf "\nERROR : 64-bits values non equals   !!!!!   \n" [],
    .printf "\n %PRIu64!= %PRIu64\n" [.uint r1, .uint r2], .exit 1]

/-- The hash call with seed `j` of scenario `alg` of `bench`, read off the `switch` of lines
83-96: the function called, the start of the payload in the block returned by `malloc` and
filled by `memset`, and the payload length. -/
def bench_call (block : List Nat) (alg : xxh_alg_enum) (j : Nat) : Event :=
  match alg with
  | .xxh_alg_32 => .XXH32 ⟨memset block 0x5A g_bufsz, 0⟩ g_bufsz j
  | .xxh_alg_32u => .XXH32 ⟨memset block 0x5A g_bufsz, 1⟩ g_bufsz j
  | .xxh_alg_64 => .XXH64 ⟨memset block 0x5A g_bufsz, 0⟩ g_bufsz j
  | .xxh_alg_64u => .XXH64 ⟨memset block 0x5A g_bufsz, 3⟩ g_bufsz j

/-- The command-line argument that selects each scenario of `bench` in `main`
(lines 210-217). -/
def alg_arg : xxh_alg_enum → String
  | .xxh_alg_32 => "32"
  | .xxh_alg_32u => "32u"
  | .xxh_alg_64 => "64"
  | .xxh_alg_64u => "64u"

/-- The calls of `usage` (lines 190-196). -/
def usage_trace (exename : String) : List Event :=
  [.printf "Usage: %s [arg]\n" [.str exename],
    .printf "Arguments :\n" [],
    .printf "  check - validate checksum result\n" [],
    .printf "  32    - benchmark 32bits aligned\n" [],
    .printf "  32u   - benchmark 32bits unaligned\n" [],
    .printf "  64    - benchmark 64bits aligned\n" [],
    .printf "  64u   - benchmark 64bits unaligned\n" []]

/-! ## Sample providers and clock readings -/

/-- A provider whose streaming state keeps the seed and every byte fed so far and whose digest
applies the one-shot function to them.  It meets the contract for any one-shot functions. -/
def bufferedProvider (h32 h64 : List Nat → Nat → Nat) : HashProvider where
  State32 := Nat × List Nat
  State64 := Nat × List Nat
  XXH32 := h32
  XXH32_reset := fun seed => (seed, [])
  XXH32_update := fun s d => (s.1, s.2 ++ d)
  XXH32_digest := fun s => h32 s.2 s.1
  XXH64 := h64
  XXH64_reset := fun seed => (seed, [])
  XXH64_update := fun s d => (s.1, s.2 ++ d)
  XXH64_digest := fun s => h64 s.2 s.1

/-- A simple one-shot function used to instantiate `bufferedProvider`: a positional checksum
of the bytes mixed with the seed. -/
def sumHash (w : Nat) (data : List Nat) (seed : Nat) : Nat :=
  (data.foldl (fun acc b => 31 * acc + b + 1) seed) % 2 ^ w

/-- A concrete provider that meets the contract. -/
def sumProvider : HashProvider := bufferedProvider (sumHash 32) (sumHash 64)

/-- Clock readings, with `CLOCKS_PER_SEC = 1000000`, of three trials that each run one batch
and then see the clock `2 * 10^16` ticks after the start of the timed loop. -/
def slow_clk : List Int :=
  [0, 1, 1, 2, 20000000000000001, 20000000000000001,
    20000000000000001, 20000000000000002, 20000000000000002, 20000000000000003,
    40000000000000002, 40000000000000002,
    40000000000000002, 40000000000000003, 40000000000000003, 40000000000000004,
    60000000000000003, 60000000000000003]

/-- Clock readings, with `CLOCKS_PER_SEC = 10`, of three trials that each run one batch and
take 12, 11 and 14 ticks. -/
def quick_clk : List Int :=
  [0, 1, 1, 2, 12, 13, 13, 14, 14, 15, 25, 25, 27, 28, 28, 29, 40, 42]

/-- Clock readings, with `CLOCKS_PER_SEC = 10`, of three trials of which the first runs two
batches and the others one. -/
def two_batch_clk : List Int :=
  [0, 1, 1, 2, 3, 12, 13, 13, 14, 14, 15, 25, 25, 27, 28, 28, 29, 40, 42]

/-- Clock readings, with `CLOCKS_PER_SEC = 1000000`, of three trials whose timed loops run no
batch: the first reading of each loop is already a full second after its start. -/
def jump_clk : List Int :=
  [0, 1, 1, 1000001, 1000001, 1000001, 1000002, 1000002, 2000002, 2000002,
    2000002, 2000003, 2000003, 3000003, 3000003]

/-! ## Lemmas on the fixture -/

theorem g_lt (i : Nat) : g i < 2 ^ 32 := by
  cases i with
  | zero => decide
  | succ i => exact Nat.mod_lt _ (by decide)

theorem check_fill_length (n i bg : Nat) (buf : List Nat) :
    (check_fill n i bg buf).length = buf.length := by
  induction n generalizing i bg buf with
  | zero => rfl
  | succ n ih => simp [check_fill, ih]

/-- Entries below the loop index are not touched by the remaining iterations. -/
theorem check_fill_below (n i bg : Nat) (buf : List Nat) (k : Nat) (hk : k < i) :
    (check_fill n i bg buf)[k]? = buf[k]? := by
  induction n generalizing i bg buf with
  | zero => rfl
  | succ n ih =>
      simp only [check_fill]
      rw [ih (i + 1) _ _ (by omega)]
      rw [List.getElem?_set_ne (by omega)]

/-- The loop started at index `i` with running value `g i` writes `g k >> 24` at every
index `k` it visits. -/
theorem check_fill_spec (n i : Nat) (buf : List Nat) (k : Nat)
    (hik : i ≤ k) (hkn : k < i + n) (hlen : i + n ≤ buf.length) :
    (check_fill n i (g i) buf)[k]? = some (g k >>> 24) := by
  induction n generalizing i buf with
  | zero => omega
  | succ n ih =>
      simp only [check_fill]
      have hg : (g i * g i) % 2 ^ 32 = g (i + 1) := rfl
      rw [hg]
      by_cases h : i = k
      · subst h
        rw [check_fill_below _ _ _ _ _ (by omega)]
        rw [List.getElem?_set_self (by omega)]
        have : g i >>> 24 < 2 ^ 8 := by
          rw [Nat.shiftRight_eq_div_pow]
          have := g_lt i
          omega
        rw [Nat.mod_eq_of_lt this]
      · exact ih (i + 1) _ (by omega) (by omega) (by simpa using by omega)

/-! ## Lemmas on sequencing -/

theorem Traced.bind_def {α β : Type} (m : Traced α) (f : α → Traced β) :
    (m >>= f) = ((m.1 ++ (f m.2).1), (f m.2).2) := rfl

theorem Traced.pure_def {α : Type} (a : α) : (pure a : Traced α) = ([], a) := rfl

theorem Traced.lift_eq {α : Type} (t : Traced α) : (liftM t : Prog α) = t.run := rfl

theorem Traced.monadLift_eq {α : Type} (t : Traced α) :
    (MonadLiftT.monadLift t : Prog α) = t.run := rfl

theorem Prog.bind_apply {α β : Type} (m : Prog α) (f : α → Prog β) (c : List Int) :
    (m >>= f) c = Prog.bind m f c := rfl

theorem Prog.pure_apply {α : Type} (a : α) (c : List Int) :
    (pure a : Prog α) c = ⟨.done a, [], c⟩ := rfl

theorem Prog.bind_of_done {α β : Type} (m : Prog α) (f : α → Prog β) (c : List Int)
    (a : α) (tr : List Event) (c1 : List Int) (h : m c = ⟨.done a, tr, c1⟩) :
    (m >>= f) c = ⟨(f a c1).status, tr ++ (f a c1).trace, (f a c1).clk⟩ := by
  simp [Prog.bind_apply, Prog.bind, h]

theorem Prog.bind_of_exited {α β : Type} (m : Prog α) (f : α → Prog β) (c : List Int)
    (n : Int) (tr : List Event) (c1 : List Int) (h : m c = ⟨.exited n, tr, c1⟩) :
    (m >>= f) c = ⟨.exited n, tr, c1⟩ := by
  simp [Prog.bind_apply, Prog.bind, h]

theorem Prog.bind_of_starved {α β : Type} (m : Prog α) (f : α → Prog β) (c : List Int)
    (tr : List Event) (c1 : List Int) (h : m c = ⟨.starved, tr, c1⟩) :
    (m >>= f) c = ⟨.starved, tr, c1⟩ := by
  simp [Prog.bind_apply, Prog.bind, h]

theorem Run.eta {α : Type} (r : Run α) : (⟨r.status, r.trace, r.clk⟩ : Run α) = r := by
  cases r; rfl

theorem Prog.bind_assoc {α β γ : Type} (m : Prog α) (f : α → Prog β) (k : β → Prog γ) :
    (m >>= f) >>= k = m >>= fun a => f a >>= k := by
  funext c
  simp only [Prog.bind_apply, Prog.bind]
  cases h : (m c).status with
  | done a =>
      simp only []
      cases h2 : (f a (m c).clk).status with
      | done b => simp [List.append_assoc]
      | exited n => simp
      | starved => simp
  | exited n => simp
  | starved => simp

theorem Prog.pure_bind {α β : Type} (a : α) (f : α → Prog β) :
    (pure a : Prog α) >>= f = f a := by
  funext c
  simp [Prog.bind_apply, Prog.bind, Prog.pure_apply, Run.eta]

/-- Inversion of a sequence that returned: both parts returned. -/
theorem Prog.bind_done_inv {α β : Type} (m : Prog α) (f : α → Prog β) (c : List Int)
    (b : β) (tr : List Event) (c2 : List Int) (h : (m >>= f) c = ⟨.done b, tr, c2⟩) :
    ∃ a tr1 c1 tr2, m c = ⟨.done a, tr1, c1⟩ ∧ f a c1 = ⟨.done b, tr2, c2⟩ ∧
      tr = tr1 ++ tr2 := by
  simp only [Prog.bind_apply, Prog.bind] at h
  cases hm : m c with
  | mk st tr1 c1 =>
    rw [hm] at h
    cases st with
    | done a =>
        simp only [] at h
        refine ⟨a, tr1, c1, (f a c1).trace, rfl, ?_, ?_⟩
        · cases hf : f a c1 with
          | mk st2 tr2 c2' =>
            rw [hf] at h
            simp only [Run.mk.injEq] at h
            simp [h.1, h.2.2]
        · simp only [Run.mk.injEq] at h
          exact h.2.1.symm
    | exited n => simp at h
    | starved => simp at h

/-- Every call made by a sequence is made by its first part or by its second part. -/
theorem Prog.mem_trace_bind {α β : Type} (m : Prog α) (f : α → Prog β) (c : List Int)
    (e : Event) (h : e ∈ ((m >>= f) c).trace) :
    e ∈ (m c).trace ∨ ∃ a, (m c).status = .done a ∧ e ∈ (f a (m c).clk).trace := by
  simp only [Prog.bind_apply, Prog.bind] at h
  cases hs : (m c).status with
  | done a =>
      rw [hs] at h
      simp only [List.mem_append] at h
      rcases h with h | h
      · exact Or.inl h
      · exact Or.inr ⟨a, rfl, h⟩
  | exited n => rw [hs] at h; exact Or.inl h
  | starved => rw [hs] at h; exact Or.inl h

/-! ## Lemmas on the three computation modes -/

/-- The bytes read one at a time at positions `0 .. n-1` are, put together, the bytes read
at once. -/
theorem Ptr.read_bytes_flatten (buf : Ptr) (n : Nat) :
    ((List.range n).map (fun pos => (buf.add pos).read 1)).flatten = buf.read n := by
  induction n with
  | zero => simp [Ptr.read]
  | succ n ih =>
      rw [List.range_succ, List.map_append, List.flatten_append, ih]
      simp only [Ptr.read, Ptr.add, List.map_cons, List.map_nil, List.flatten_cons,
        List.flatten_nil, List.append_nil]
      rw [List.take_add, List.drop_drop]

theorem check32_loop_spec (P : HashProvider) (buf : Ptr) (n pos : Nat) (st : P.State32) :
    check32_loop P buf n pos st =
      ((List.range n).map (fun k => Event.XXH32_update (buf.add (pos + k)) 1),
        ((List.range n).map (fun k => (buf.add (pos + k)).read 1)).foldl P.XXH32_update st) := by
  induction n generalizing pos st with
  | zero => rfl
  | succ n ih =>
      simp only [check32_loop, ih, List.range_succ_eq_map, List.map_cons, List.map_map,
        List.foldl_cons, Nat.add_zero, Traced.bind_def, XXH32_update]
      have : ∀ k, pos + 1 + k = pos + (k + 1) := by intro k; omega
      simp [Function.comp_def, this]

theorem check64_loop_spec (P : HashProvider) (buf : Ptr) (n pos : Nat) (st : P.State64) :
    check64_loop P buf n pos st =
      ((List.range n).map (fun k => Event.XXH64_update (buf.add (pos + k)) 1),
        ((List.range n).map (fun k => (buf.add (pos + k)).read 1)).foldl P.XXH64_update st) := by
  induction n generalizing pos st with
  | zero => rfl
  | succ n ih =>
      simp only [check64_loop, ih, List.range_succ_eq_map, List.map_cons, List.map_map,
        List.foldl_cons, Nat.add_zero, Traced.bind_def, XXH64_update]
      have : ∀ k, pos + 1 + k = pos + (k + 1) := by intro k; omega
      simp [Function.comp_def, this]

theorem check32_bytes_spec (P : HashProvider) (buf : Ptr) (len seed : Nat) :
    check32_bytes P buf len seed =
      (.XXH32_reset seed ::
          ((List.range len).map (fun pos => Event.XXH32_update (buf.add pos) 1)
            ++ [.XXH32_digest]),
        P.XXH32_digest (((List.range len).map (fun pos => (buf.add pos).read 1)).foldl
          P.XXH32_update (P.XXH32_reset seed)) % 2 ^ 32) := by
  simp [check32_bytes, check32_loop_spec, Traced.bind_def, XXH32_reset, XXH32_digest]

theorem check64_bytes_spec (P : HashProvider) (buf : Ptr) (len seed : Nat) :
    check64_bytes P buf len seed =
      (.XXH64_reset seed ::
          ((List.range len).map (fun pos => Event.XXH64_update (buf.add pos) 1)
            ++ [.XXH64_digest]),
        P.XXH64_digest (((List.range len).map (fun pos => (buf.add pos).read 1)).foldl
          P.XXH64_update (P.XXH64_reset seed)) % 2 ^ 64) := by
  simp [check64_bytes, check64_loop_spec, Traced.bind_def, XXH64_reset, XXH64_digest]

theorem check32_single_eq (P : HashProvider) (h : P.Contract32) (buf : Ptr) (len seed : Nat) :
    (check32_single P buf len seed).2 = (check32_oneshot P buf len seed).2 := by
  have := h seed [buf.read len]
  simp only [List.foldl_cons, List.foldl_nil, List.flatten_cons, List.flatten_nil,
    List.append_nil] at this
  simp [check32_single, check32_oneshot, this, Traced.bind_def, XXH32_reset, XXH32_update,
    XXH32_digest, XXH32]

theorem check32_bytes_eq (P : HashProvider) (h : P.Contract32) (buf : Ptr) (len seed : Nat) :
    (check32_bytes P buf len seed).2 = (check32_oneshot P buf len seed).2 := by
  rw [check32_bytes_spec]
  simp only [check32_oneshot, XXH32]
  rw [h seed, Ptr.read_bytes_flatten]

theorem check64_single_eq (P : HashProvider) (h : P.Contract64) (buf : Ptr) (len seed : Nat) :
    (check64_single P buf len seed).2 = (check64_oneshot P buf len seed).2 := by
  have := h seed [buf.read len]
  simp only [List.foldl_cons, List.foldl_nil, List.flatten_cons, List.flatten_nil,
    List.append_nil] at this
  simp [check64_single, check64_oneshot, this, Traced.bind_def, XXH64_reset, XXH64_update,
    XXH64_digest, XXH64]

theorem check64_bytes_eq (P : HashProvider) (h : P.Contract64) (buf : Ptr) (len seed : Nat) :
    (check64_bytes P buf len seed).2 = (check64_oneshot P buf len seed).2 := by
  rw [check64_bytes_spec]
  simp only [check64_oneshot, XXH64]
  rw [h seed, Ptr.read_bytes_flatten]

theorem bufferedProvider_foldl (seed : Nat) (chunks : List (List Nat)) (acc : List Nat) :
    chunks.foldl (fun (s : Nat × List Nat) d => (s.1, s.2 ++ d)) (seed, acc)
      = (seed, acc ++ chunks.flatten) := by
  induction chunks generalizing acc with
  | nil => simp
  | cons d ds ih => simp [ih, List.append_assoc]

theorem bufferedProvider_contract32 (h32 h64 : List Nat → Nat → Nat) :
    (bufferedProvider h32 h64).Contract32 := by
  intro seed chunks
  simp only [bufferedProvider]
  rw [bufferedProvider_foldl]
  simp

theorem bufferedProvider_contract64 (h32 h64 : List Nat → Nat → Nat) :
    (bufferedProvider h32 h64).Contract64 := by
  intro seed chunks
  simp only [bufferedProvider]
  rw [bufferedProvider_foldl]
  simp

/-! ## Lemmas on the correctness oracle -/

theorem Traced.run_bind {α β : Type} (t : Traced α) (f : α → Traced β) :
    (t >>= f).run = t.run >>= fun a => (f a).run := by
  funext c
  simp [Traced.run, Traced.bind_def, Prog.bind_apply, Prog.bind]

theorem Prog.bind_pure_unit (m : Prog Unit) : (m >>= fun _ => (pure () : Prog Unit)) = m := by
  funext c
  simp only [Prog.bind_apply, Prog.bind, Prog.pure_apply]
  cases hm : m c with
  | mk st tr c1 =>
    cases st with
    | done a => simp
    | exited n => simp
    | starved => simp

theorem check_result_eq (r : Nat) : check_result r r = pure () := by
  simp [check_result]

theorem check_result_ne (r1 r2 : Nat) (h : r1 ≠ r2) (c : List Int) :
    check_result r1 r2 c = ⟨.exited 1, check_report r1 r2, c⟩ := by
  simp [check_result, h, Prog.bind_apply, Prog.bind, printf, exit, check_report]

theorem check_seq_append (xs ys : List (Traced Nat × Nat)) :
    check_seq (xs ++ ys) = check_seq xs >>= fun _ => check_seq ys := by
  induction xs with
  | nil => simp [check_seq, Prog.pure_bind]
  | cons x xs ih =>
      show check_seq (x :: (xs ++ ys)) = _
      simp only [check_seq, ih, Prog.bind_assoc]

theorem check32_eq_seq (P : HashProvider) (buf : Ptr) (len seed truth : Nat) :
    check32 P buf len seed truth = check_seq (check32_list P buf len seed truth) := by
  simp only [check32, check32_list, check_seq, Prog.bind_pure_unit, check32_oneshot,
    check32_single, check32_bytes, Traced.run_bind, Prog.bind_assoc, Traced.monadLift_eq,
    Traced.lift_eq]

theorem check64_eq_seq (P : HashProvider) (buf : Ptr) (len seed truth : Nat) :
    check64 P buf len seed truth = check_seq (check64_list P buf len seed truth) := by
  simp only [check64, check64_list, check_seq, Prog.bind_pure_unit, check64_oneshot,
    check64_single, check64_bytes, Traced.run_bind, Prog.bind_assoc, Traced.monadLift_eq,
    Traced.lift_eq]

theorem check_eq_seq (P : HashProvider) :
    check P = check_seq (check_list P) >>= fun _ => printf "Sanity check -- all tests ok\n" [] := by
  simp only [check, check_list, check32_eq_seq, check64_eq_seq, check_seq_append,
    Prog.bind_assoc]

theorem check_seq_pass (cs : List (Traced Nat × Nat)) (h : ∀ c ∈ cs, c.1.2 = c.2)
    (clk : List Int) :
    check_seq cs clk = ⟨.done (), (cs.map (fun c => c.1.1)).flatten, clk⟩ := by
  induction cs with
  | nil => rfl
  | cons c cs ih =>
      have hc : c.1.2 = c.2 := h c (List.mem_cons_self _ _)
      have ih2 := ih (fun d hd => h d (List.mem_cons_of_mem _ hd))
      simp only [check_seq]
      rw [Prog.bind_of_done c.1.run _ clk c.1.2 c.1.1 clk rfl]
      rw [hc, check_result_eq, Prog.pure_bind, ih2]
      simp

theorem check_seq_fail (pre post : List (Traced Nat × Nat)) (c : Traced Nat × Nat)
    (hpre : ∀ d ∈ pre, d.1.2 = d.2) (hc : c.1.2 ≠ c.2) (clk : List Int) :
    check_seq (pre ++ c :: post) clk =
      ⟨.exited 1, (pre.map (fun d => d.1.1)).flatten ++ c.1.1 ++ check_report c.1.2 c.2, clk⟩ := by
  rw [check_seq_append]
  rw [Prog.bind_of_done _ _ clk () _ clk (check_seq_pass pre hpre clk)]
  simp only [check_seq]
  rw [Prog.bind_of_done c.1.run _ clk c.1.2 c.1.1 clk rfl]
  rw [Prog.bind_of_exited _ _ clk 1 _ clk (check_result_ne _ _ hc clk)]
  simp [List.append_assoc]

/-- A list that does not satisfy a property everywhere has a first element that fails it. -/
theorem exists_first_failure {α : Type} (p : α → Prop) (l : List α) (h : ¬ ∀ x ∈ l, p x) :
    ∃ pre x post, l = pre ++ x :: post ∧ (∀ y ∈ pre, p y) ∧ ¬ p x := by
  induction l with
  | nil => simp at h
  | cons a l ih =>
      by_cases ha : p a
      · have : ¬ ∀ x ∈ l, p x := by
          intro hl
          apply h
          intro x hx
          rcases List.mem_cons.1 hx with rfl | hx
          · exact ha
          · exact hl x hx
        obtain ⟨pre, x, post, rfl, hpre, hx⟩ := ih this
        refine ⟨a :: pre, x, post, rfl, ?_, hx⟩
        intro y hy
        rcases List.mem_cons.1 hy with rfl | hy
        · exact ha
        · exact hpre y hy
      · exact ⟨[], a, l, rfl, by simp, ha⟩

/-! ## The fixture buffer -/

theorem check_buf_getElem? (init : List Nat) (hlen : init.length = BUFSZ) (i : Nat)
    (hi : i < 101) : (check_buf init)[i]? = some (g i >>> 24) := by
  have := check_fill_spec (BUFSZ - 0) 0 init i (Nat.zero_le _) (by simpa [BUFSZ] using hi)
    (by simp [hlen])
  simpa [check_buf, g] using this

theorem g_one_of_le (i : Nat) (h : 28 ≤ i) : g i = 1 := by
  induction i with
  | zero => omega
  | succ i ih =>
      by_cases h28 : i + 1 = 28
      · rw [h28]; decide
      · have := ih (by omega)
        simp [g, this]

theorem check_buf_eq_map (l : List Nat) (hl : l.length = BUFSZ) :
    check_buf l = (List.range 101).map (fun i => g i >>> 24) := by
  apply List.ext_getElem?
  intro i
  by_cases hi : i < 101
  · rw [check_buf_getElem? l hl i hi]
    simp [List.getElem?_map, List.getElem?_range hi]
  · have h1 : (check_buf l).length ≤ i := by
      simp [check_buf, check_fill_length, hl, BUFSZ]; omega
    rw [List.getElem?_eq_none h1, List.getElem?_eq_none (by simpa using by omega)]

/-- C3: for every initial content of the local array, the buffer that `check` builds has
`buf[i] = g_i >> 24` at every index `i < 101`, where `g_0 = 2654435761` and
`g_{i+1} = g_i * g_i mod 2^32`; that value is the high-order byte of `g_i` (it is
`g_i / 2^24`, below 256); the buffer is this one sequence of 101 bytes whatever the
storage held before, so it is the same on every run. -/
theorem check_buf_generated (init : List Nat) (hlen : init.length = BUFSZ) :
    (∀ i, i < 101 → (check_buf init)[i]? = some (g i >>> 24)
        ∧ g i >>> 24 = g i / 2 ^ 24 ∧ g i >>> 24 < 256)
      ∧ (check_buf init).length = 101
      ∧ check_buf init = (List.range 101).map (fun i => g i >>> 24)
      ∧ check_buf init = check_buf (List.replicate BUFSZ 0) := by
  have hgen := check_buf_eq_map
  refine ⟨?_, ?_, hgen init hlen, ?_⟩
  · intro i hi
    refine ⟨check_buf_getElem? init hlen i hi, Nat.shiftRight_eq_div_pow _ _, ?_⟩
    rw [Nat.shiftRight_eq_div_pow]
    have := g_lt i
    omega
  · simp [check_buf, check_fill_length, hlen, BUFSZ]
  · rw [hgen init hlen, hgen _ (by simp)]

/-- The buffer of `check` at index 3, from storage that held sevens. -/
theorem check_buf_generated_witness :
    (check_buf (List.replicate 101 7))[3]? = some (g 3 >>> 24)
      ∧ g 3 >>> 24 = g 3 / 2 ^ 24 ∧ g 3 >>> 24 < 256 :=
  (check_buf_generated (List.replicate 101 7) (by decide)).1 3 (by decide)

/-- C10: the recurrence of the fixture degenerates.  `g_0 - 1` is divisible by 16 and not by
32, and every squaring adds one trailing zero bit to `g_i - 1` (for `i < 28`,
`2^(4+i)` divides `g_i - 1` and `2^(5+i)` does not), so `g_i = 1` for every `i ≥ 28`;
hence `buf[27] = 0x80` and `buf[i] = 0` for `28 ≤ i < 101`: the last 73 bytes of the
101-byte fixture are zero. -/
theorem check_buf_degenerates (init : List Nat) (hlen : init.length = BUFSZ) :
    (16 ∣ prime - 1 ∧ ¬ 32 ∣ prime - 1)
      ∧ (∀ i, i < 28 → 2 ^ (4 + i) ∣ g i - 1 ∧ ¬ 2 ^ (5 + i) ∣ g i - 1)
      ∧ (∀ i, 28 ≤ i → g i = 1)
      ∧ (check_buf init)[27]? = some 0x80
      ∧ (∀ i, 28 ≤ i → i < 101 → (check_buf init)[i]? = some 0)
      ∧ (check_buf init).drop 28 = List.replicate 73 0 := by
  refine ⟨by decide, by decide, g_one_of_le, ?_, ?_, ?_⟩
  · rw [check_buf_getElem? _ hlen 27 (by decide)]; decide
  · intro i h28 h101
    rw [check_buf_getElem? _ hlen i h101, g_one_of_le i h28]; rfl
  · rw [check_buf_eq_map init hlen]
    decide

/-- The byte at index 64 of the fixture that `check` builds is zero. -/
theorem check_buf_degenerates_witness :
    (check_buf (List.replicate BUFSZ 0))[64]? = some 0 :=
  (check_buf_degenerates (List.replicate BUFSZ 0) (by decide)).2.2.2.2.1 64
    (by decide) (by decide)

/-! ## The three computation modes agree -/

/-- C2: for any hash provider meeting the interface contract, for every buffer, every length
and every seed, the three digests that `check32` computes (one-shot, single update,
byte at a time) are identical, and likewise for `check64`.  The single-update path issues
reset, one update of length `len`, digest; the byte-at-a-time path issues reset, exactly
`len` updates of one byte at positions `0, 1, ..., len-1` in order (none when `len = 0`),
digest; the bytes of these updates put together are `buf[0..len)`, one byte each when the
buffer holds `len` bytes.  `check32` and `check64` compare exactly these three computations,
in this order, with `truth`. -/
theorem check_modes_agree (P : HashProvider) (h32 : P.Contract32) (h64 : P.Contract64)
    (buf : Ptr) (len seed : Nat) :
    ((check32_single P buf len seed).2 = (check32_oneshot P buf len seed).2
        ∧ (check32_bytes P buf len seed).2 = (check32_oneshot P buf len seed).2
        ∧ (check32_single P buf len seed).1
            = [.XXH32_reset seed, .XXH32_update buf len, .XXH32_digest]
        ∧ (check32_bytes P buf len seed).1
            = .XXH32_reset seed ::
                ((List.range len).map (fun pos => Event.XXH32_update (buf.add pos) 1)
                  ++ [.XXH32_digest]))
      ∧ ((check64_single P buf len seed).2 = (check64_oneshot P buf len seed).2
        ∧ (check64_bytes P buf len seed).2 = (check64_oneshot P buf len seed).2
        ∧ (check64_single P buf len seed).1
            = [.XXH64_reset seed, .XXH64_update buf len, .XXH64_digest]
        ∧ (check64_bytes P buf len seed).1
            = .XXH64_reset seed ::
                ((List.range len).map (fun pos => Event.XXH64_update (buf.add pos) 1)
                  ++ [.XXH64_digest]))
      ∧ ((List.range len).map (fun pos => (buf.add pos).read 1)).flatten = buf.read len
      ∧ (buf.off + len ≤ buf.base.length →
          (buf.read len).length = len ∧ ∀ pos, pos < len → ((buf.add pos).read 1).length = 1)
      ∧ (∀ truth, check32 P buf len seed truth = check_seq (check32_list P buf len seed truth))
      ∧ (∀ truth, check64 P buf len seed truth
          = check_seq (check64_list P buf len seed truth)) := by
  refine ⟨⟨check32_single_eq P h32 buf len seed, check32_bytes_eq P h32 buf len seed, rfl, ?_⟩,
    ⟨check64_single_eq P h64 buf len seed, check64_bytes_eq P h64 buf len seed, rfl, ?_⟩,
    Ptr.read_bytes_flatten buf len, ?_, check32_eq_seq P buf len seed,
    check64_eq_seq P buf len seed⟩
  · rw [check32_bytes_spec]
  · rw [check64_bytes_spec]
  · intro hb
    refine ⟨by simp [Ptr.read]; omega, fun pos hpos => ?_⟩
    simp [Ptr.read, Ptr.add]
    omega

/-- The three modes agree on a three-byte buffer with seed 7 for a concrete provider that
meets the contract, and on the null buffer of length 0. -/
theorem check_modes_agree_witness :
    ((check32_bytes sumProvider ⟨[1, 2, 3], 0⟩ 3 7).2
        = (check32_oneshot sumProvider ⟨[1, 2, 3], 0⟩ 3 7).2
      ∧ (check32_bytes sumProvider ⟨[1, 2, 3], 0⟩ 3 7).2 = 210556)
    ∧ (check64_bytes sumProvider NULL 0 7).2 = (check64_oneshot sumProvider NULL 0 7).2 :=
  ⟨⟨(check_modes_agree sumProvider (bufferedProvider_contract32 _ _)
      (bufferedProvider_contract64 _ _) ⟨[1, 2, 3], 0⟩ 3 7).1.2.1, by decide⟩,
    (check_modes_agree sumProvider (bufferedProvider_contract32 _ _)
      (bufferedProvider_contract64 _ _) NULL 0 7).2.1.2.1⟩

/-! ## The oracle fails fast -/

theorem check_pass (P : HashProvider) (clk : List Int) (h : ∀ c ∈ check_list P, c.1.2 = c.2) :
    check P clk = ⟨.done (), ((check_list P).map (fun c => c.1.1)).flatten
      ++ [.printf "Sanity check -- all tests ok\n" []], clk⟩ := by
  rw [check_eq_seq, Prog.bind_of_done _ _ clk () _ clk (check_seq_pass _ h clk)]
  simp [printf]

theorem check_fail (P : HashProvider) (clk : List Int) (pre : List (Traced Nat × Nat))
    (c : Traced Nat × Nat) (post : List (Traced Nat × Nat))
    (hl : check_list P = pre ++ c :: post) (hpre : ∀ d ∈ pre, d.1.2 = d.2)
    (hc : c.1.2 ≠ c.2) :
    check P clk = ⟨.exited 1,
      (pre.map (fun d => d.1.1)).flatten ++ c.1.1 ++ check_report c.1.2 c.2, clk⟩ := by
  rw [check_eq_seq, hl,
    Prog.bind_of_exited _ _ clk 1 _ clk (check_seq_fail pre post c hpre hc clk)]

theorem check_done_iff (P : HashProvider) (clk : List Int) :
    (check P clk).status = .done () ↔ ∀ c ∈ check_list P, c.1.2 = c.2 := by
  constructor
  · intro hdone
    by_contra hne
    obtain ⟨pre, c, post, hl, hpre, hc⟩ :=
      exists_first_failure (fun c : Traced Nat × Nat => c.1.2 = c.2) (check_list P) hne
    rw [check_fail P clk pre c post hl hpre hc] at hdone
    simp at hdone
  · intro h
    rw [check_pass P clk h]

/-- C4: `check_result(actual, expected)` ends the run with exit status 1, after printing
both values, exactly when `actual ≠ expected`, and otherwise returns having made no call.
`check` makes its 48 comparisons in table order, within a vector in the order one-shot,
single update, byte at a time.  It returns (after printing the final line) exactly when
all 48 comparisons are equal.  When some comparison differs, it exits with status 1 at
the first such comparison: the calls made are those of the comparisons up to and including
that one, followed by the report of its (actual, expected) pair and the exit; no hash call
and no comparison follows. -/
theorem check_fails_fast (P : HashProvider) (clk : List Int) :
    (∀ (r1 r2 : Nat) (c : List Int),
        ((check_result r1 r2 c).status = .exited 1 ↔ r1 ≠ r2)
        ∧ (r1 ≠ r2 → check_result r1 r2 c = ⟨.exited 1,
            [.printf "\nERROR : 64-bits values non equals   !!!!!   \n" [],
              .printf "\n %PRIu64!= %PRIu64\n" [.uint r1, .uint r2], .exit 1], c⟩)
        ∧ (r1 = r2 → check_result r1 r2 c = ⟨.done (), [], c⟩))
      ∧ (check_list P).length = 48
      ∧ ((check P clk).status = .done () ↔ ∀ c ∈ check_list P, c.1.2 = c.2)
      ∧ ((∀ c ∈ check_list P, c.1.2 = c.2) →
          check P clk = ⟨.done (), ((check_list P).map (fun c => c.1.1)).flatten
            ++ [.printf "Sanity check -- all tests ok\n" []], clk⟩)
      ∧ (∀ pre c post, check_list P = pre ++ c :: post → (∀ d ∈ pre, d.1.2 = d.2) →
          c.1.2 ≠ c.2 →
          check P clk = ⟨.exited 1,
            (pre.map (fun d => d.1.1)).flatten ++ c.1.1 ++ check_report c.1.2 c.2, clk⟩)
      ∧ ((check P clk).status = .done () ∨ (check P clk).status = .exited 1) := by
  have hpass := check_pass P clk
  have hfail := check_fail P clk
  refine ⟨?_, by simp [check_list, check32_list, check64_list], ?_, hpass, hfail, ?_⟩
  · intro r1 r2 c
    refine ⟨?_, fun h => check_result_ne r1 r2 h c, ?_⟩
    · constructor
      · intro h heq
        subst heq
        rw [check_result_eq] at h
        simp [Prog.pure_apply] at h
      · intro h
        rw [check_result_ne r1 r2 h c]
    · intro h
      subst h
      rw [check_result_eq]
      rfl
  · exact check_done_iff P clk
  · by_cases h : ∀ c ∈ check_list P, c.1.2 = c.2
    · left; rw [hpass h]
    · right
      obtain ⟨pre, c, post, hl, hpre, hc⟩ :=
        exists_first_failure (fun c : Traced Nat × Nat => c.1.2 = c.2) (check_list P) h
      rw [hfail pre c post hl hpre hc]

/-- With a provider whose digest of the empty input is not the table's, `check` exits with
status 1 at the first comparison, reporting the actual and the expected value. -/
theorem check_fails_fast_witness :
    check sumProvider [] = ⟨.exited 1,
      [.XXH32 NULL 0 0,
        .printf "\nERROR : 64-bits values non equals   !!!!!   \n" [],
        .printf "\n %PRIu64!= %PRIu64\n" [.uint 0, .uint 0x02CC5D05], .exit 1], []⟩ :=
  (check_fails_fast sumProvider []).2.2.2.2.1 []
    (check32_oneshot sumProvider NULL 0 0, 0x02CC5D05) ((check_list sumProvider).drop 1)
    rfl (by simp) (by decide)

/-! ## Lemmas on the timing harness -/

theorem Run.eq_mk_of {α : Type} (r : Run α) (s : Status α) (c : List Int)
    (hs : r.status = s) (hc : r.clk = c) : r = ⟨s, r.trace, c⟩ := by
  cases r
  simp_all

/-- The calls of one batch: `h(buf, len, j)` for `j = 0, 1, ..., perloop - 1` in order. -/
theorem bench_batch_trace (h : Ptr → Nat → Nat → Traced Nat) (buf : Ptr) (len n j r : Nat) :
    (bench_batch h buf len n j r).1
      = ((List.range n).map (fun k => (h buf len (j + k)).1)).flatten := by
  induction n generalizing j r with
  | zero => rfl
  | succ n ih =>
      show (h buf len j).1 ++ (bench_batch h buf len n (j + 1) _).1 = _
      rw [ih, List.range_succ_eq_map]
      have : ∀ k, j + 1 + k = j + (k + 1) := by intro k; omega
      simp [Function.comp_def, this]

theorem bench_spin_done (start : Int) (clk : List Int) (tr : List Event) (c' : List Int)
    (h : bench_spin start clk = ⟨.done (), tr, c'⟩) :
    ∃ m t, clk = List.replicate m start ++ t :: c' ∧ t ≠ start
      ∧ tr = List.replicate m (.clock start) ++ [.clock t] := by
  induction clk generalizing tr with
  | nil => simp [bench_spin] at h
  | cons t c ih =>
      simp only [bench_spin] at h
      by_cases ht : t = start
      · simp only [ht, if_true, Run.mk.injEq] at h
        obtain ⟨m, t', hc, hne, htr⟩ := ih (bench_spin start c).trace
          (Run.eq_mk_of _ _ _ h.1 h.2.2)
        refine ⟨m + 1, t', ?_, hne, ?_⟩
        · simp [List.replicate_succ, hc, ht]
        · rw [← h.2.1, htr]; simp [List.replicate_succ]
      · simp only [ht, if_false, Run.mk.injEq] at h
        refine ⟨0, t, ?_, ht, ?_⟩
        · simp [h.2.2]
        · simp [← h.2.1]

theorem bench_spin_mem (start : Int) (clk : List Int) (e : Event)
    (h : e ∈ (bench_spin start clk).trace) : ∃ t, e = .clock t := by
  induction clk with
  | nil => simp [bench_spin] at h
  | cons t c ih =>
      simp only [bench_spin] at h
      by_cases ht : t = start
      · simp only [ht, if_true, List.mem_cons] at h
        rcases h with h | h
        · exact ⟨start, h⟩
        · exact ih h
      · simp only [ht, if_false, List.mem_singleton] at h
        exact ⟨t, h⟩

theorem bench_timed_done (CPS : Int) (h : Ptr → Nat → Nat → Traced Nat) (buf : Ptr) (len : Nat)
    (start : Int) (count r : Nat) (hcount : count < 2 ^ 32) (clk : List Int) (cnt r' : Nat)
    (tr : List Event) (c' : List Int)
    (hrun : bench_timed CPS h buf len start count r clk = ⟨.done (cnt, r'), tr, c'⟩) :
    ∃ ts t, clk = ts ++ t :: c' ∧ (∀ x ∈ ts, x - start < CPS) ∧ CPS ≤ t - start
      ∧ cnt = (count + perloop * ts.length) % 2 ^ 32
      ∧ tr = (ts.map (fun x => Event.clock x ::
              ((List.range perloop).map (fun j => (h buf len j).1)).flatten)).flatten
            ++ [.clock t] := by
  induction clk generalizing count r tr with
  | nil => simp [bench_timed] at hrun
  | cons t c ih =>
      simp only [bench_timed] at hrun
      by_cases ht : t - start < CPS
      · simp only [ht, if_true, Run.mk.injEq] at hrun
        obtain ⟨ts, t', hc, hts, ht', hcnt, htr⟩ := ih ((count + perloop) % 2 ^ 32)
          (bench_batch h buf len (perloop - 0) 0 r).2 (Nat.mod_lt _ (by decide)) _
          (Run.eq_mk_of _ _ _ hrun.1 hrun.2.2)
        refine ⟨t :: ts, t', by simp [hc], ?_, ht', ?_, ?_⟩
        · intro x hx
          rcases List.mem_cons.1 hx with rfl | hx
          · exact ht
          · exact hts x hx
        · rw [hcnt]
          simp only [List.length_cons, perloop]
          omega
        · rw [← hrun.2.1, htr, bench_batch_trace]
          simp
      · simp only [ht, if_false, Run.mk.injEq, Status.done.injEq, Prod.mk.injEq] at hrun
        refine ⟨[], t, by simp [hrun.2.2], by simp, by omega, ?_, ?_⟩
        · simp only [List.length_nil, Nat.mul_zero, Nat.add_zero, ← hrun.1.1]
          exact (Nat.mod_eq_of_lt hcount).symm
        · simp [← hrun.2.1]
theorem clock_done (clk : List Int) (t : Int) (tr : List Event) (c' : List Int)
    (h : clock clk = ⟨.done t, tr, c'⟩) : clk = t :: c' ∧ tr = [.clock t] := by
  cases clk with
  | nil => simp [clock] at h
  | cons x c =>
      simp only [clock, Run.mk.injEq, Status.done.injEq] at h
      simp [h.1, ← h.2.1, h.2.2]

theorem clock_span_done (start : Int) (clk : List Int) (v : Int) (tr : List Event)
    (c' : List Int) (h : clock_span start clk = ⟨.done v, tr, c'⟩) :
    ∃ t, clk = t :: c' ∧ tr = [.clock t] ∧ v = t - start := by
  cases clk with
  | nil => simp [clock_span, Prog.bind_apply, Prog.bind, clock] at h
  | cons x c =>
      simp only [clock_span, Prog.bind_apply, Prog.bind, clock, Prog.pure_apply, Run.mk.injEq,
        Status.done.injEq, List.append_nil] at h
      exact ⟨x, by simp [h.2.2], by simp [← h.2.1], h.1.symm⟩

/-- What a trial that returned has done: the shape of the readings it consumed, the calls it
made, and the sample it measured. -/
theorem bench_trial_done (CPS : Int) (h : Ptr → Nat → Nat → Traced Nat) (name : String)
    (buf : Ptr) (len i : Nat) (clk : List Int) (s : Sample) (tr : List Event) (c' : List Int)
    (hrun : bench_trial CPS h name buf len i clk = ⟨.done s, tr, c'⟩) :
    ∃ (s0 : Int) (m : Nat) (t1 start : Int) (ts : List Int) (t tf : Int),
      clk = s0 :: (List.replicate m s0 ++ t1 :: start :: (ts ++ t :: tf :: c'))
      ∧ t1 ≠ s0 ∧ (∀ x ∈ ts, x - start < CPS) ∧ CPS ≤ t - start
      ∧ s.count = (perloop * ts.length) % 2 ^ 32
      ∧ s.times = ((Dbl.ofInt (tf - start)).div (Dbl.ofInt CPS)).div (Dbl.ofNat s.count)
      ∧ tr = .printf "%1i-%-17.17s : %10u ->\r" [.int i, .str name, .uint (len % 2 ^ 32)]
          :: .clock s0 :: (List.replicate m (.clock s0) ++ .clock t1 :: .clock start ::
            ((ts.map (fun x => Event.clock x ::
                ((List.range perloop).map (fun j => (h buf len j).1)).flatten)).flatten
              ++ .clock t :: ((if s.r = 0 then [.printf "." []] else []) ++ [.clock tf]))) := by
  unfold bench_trial at hrun
  obtain ⟨_, tr0, c0, trA, h0, hA, rfl⟩ := Prog.bind_done_inv _ _ _ _ _ _ hrun
  simp only [printf, Run.mk.injEq] at h0
  obtain ⟨-, rfl, rfl⟩ := h0
  obtain ⟨s0, tr1, c1, trB, h1, hB, rfl⟩ := Prog.bind_done_inv _ _ _ _ _ _ hA
  obtain ⟨rfl, rfl⟩ := clock_done _ _ _ _ h1
  obtain ⟨_, tr2, c2, trC, h2, hC, rfl⟩ := Prog.bind_done_inv _ _ _ _ _ _ hB
  obtain ⟨m, t1, rfl, hne, rfl⟩ := bench_spin_done _ _ _ _ h2
  obtain ⟨start, tr3, c3, trD, h3, hD, rfl⟩ := Prog.bind_done_inv _ _ _ _ _ _ hC
  obtain ⟨rfl, rfl⟩ := clock_done _ _ _ _ h3
  obtain ⟨⟨cnt, r⟩, tr4, c4, trE, h4, hE, rfl⟩ := Prog.bind_done_inv _ _ _ _ _ _ hD
  obtain ⟨ts, t, rfl, hts, ht, hcnt, rfl⟩ :=
    bench_timed_done _ _ _ _ _ _ _ (by decide) _ _ _ _ _ h4
  simp only at hE
  have hE' : ∃ tf, c4 = tf :: c' ∧ s = ⟨cnt, r, ((Dbl.ofInt (tf - start)).div
      (Dbl.ofInt CPS)).div (Dbl.ofNat cnt)⟩
      ∧ trE = (if r = 0 then [.printf "." []] else []) ++ [.clock tf] := by
    by_cases hr : r = 0
    · simp only [hr, if_true] at hE
      obtain ⟨_, tr5, c5, trF, h5, hF, rfl⟩ := Prog.bind_done_inv _ _ _ _ _ _ hE
      simp only [printf, Run.mk.injEq] at h5
      obtain ⟨-, rfl, rfl⟩ := h5
      obtain ⟨span, tr6, c6, trG, h6, hG, rfl⟩ := Prog.bind_done_inv _ _ _ _ _ _ hF
      obtain ⟨tf, rfl, rfl, rfl⟩ := clock_span_done _ _ _ _ _ h6
      simp only [Prog.pure_apply, Run.mk.injEq, Status.done.injEq] at hG
      obtain ⟨rfl, rfl, rfl⟩ := hG
      exact ⟨tf, rfl, by simp [hr], by simp [hr]⟩
    · simp only [hr, if_false] at hE
      obtain ⟨_, tr5, c5, trF, h5, hF, rfl⟩ := Prog.bind_done_inv _ _ _ _ _ _ hE
      simp only [Prog.pure_apply, Run.mk.injEq] at h5
      obtain ⟨-, rfl, rfl⟩ := h5
      obtain ⟨span, tr6, c6, trG, h6, hG, rfl⟩ := Prog.bind_done_inv _ _ _ _ _ _ hF
      obtain ⟨tf, rfl, rfl, rfl⟩ := clock_span_done _ _ _ _ _ h6
      simp only [Prog.pure_apply, Run.mk.injEq, Status.done.injEq] at hG
      obtain ⟨rfl, rfl, rfl⟩ := hG
      exact ⟨tf, rfl, rfl, by simp [hr]⟩
  obtain ⟨tf, rfl, rfl, rfl⟩ := hE'
  refine ⟨s0, m, t1, start, ts, t, tf, rfl, hne, hts, ht, ?_, rfl, ?_⟩
  · simpa using hcnt
  · simp
/-- The progress line that `bench_xxh` prints after trial `i` (lines 64-65). -/
theorem bench_trials_succ (CPS : Int) (h : Ptr → Nat → Nat → Traced Nat) (name : String)
    (buf : Ptr) (len n i : Nat) (fastest : Dbl) (clk : List Int) (s : Sample)
    (tr : List Event) (c1 : List Int)
    (h1 : bench_trial CPS h name buf len i clk = ⟨.done s, tr, c1⟩) :
    bench_trials CPS h name buf len (n + 1) i fastest clk =
      ⟨(bench_trials CPS h name buf len n (i + 1) (fastest_update fastest s.times) c1).status,
        tr ++ .printf "%1i-%-17.17s : %10u -> %7.1f MB/s\r"
            [.int i, .str name, .uint (len % 2 ^ 32),
              .dbl (throughput len (fastest_update fastest s.times))] ::
          (bench_trials CPS h name buf len n (i + 1) (fastest_update fastest s.times) c1).trace,
        (bench_trials CPS h name buf len n (i + 1) (fastest_update fastest s.times) c1).clk⟩ := by
  simp only [bench_trials]
  rw [Prog.bind_of_done _ _ clk s tr c1 h1]
  simp [Prog.bind_apply, Prog.bind, printf]

/-- When its three trials return, `bench_xxh` returns; its calls are those of the trials,
each followed by a progress line, and the final report. -/
theorem bench_xxh_of_trials (CPS : Int) (h : Ptr → Nat → Nat → Traced Nat) (name : String)
    (buf : Ptr) (len : Nat) (clk c1 c2 c3 : List Int) (s1 s2 s3 : Sample)
    (tr1 tr2 tr3 : List Event)
    (h1 : bench_trial CPS h name buf len 1 clk = ⟨.done s1, tr1, c1⟩)
    (h2 : bench_trial CPS h name buf len 2 c1 = ⟨.done s2, tr2, c2⟩)
    (h3 : bench_trial CPS h name buf len 3 c2 = ⟨.done s3, tr3, c3⟩) :
    bench_xxh CPS h name buf len clk =
      ⟨.done (),
        .printf "\r%79s\r" [.str ""] ::
          (tr1 ++ .printf "%1i-%-17.17s : %10u -> %7.1f MB/s\r"
              [.int 1, .str name, .uint (len % 2 ^ 32),
                .dbl (throughput len (fastest_update fastest_init s1.times))] ::
            (tr2 ++ .printf "%1i-%-17.17s : %10u -> %7.1f MB/s\r"
                [.int 2, .str name, .uint (len % 2 ^ 32),
                  .dbl (throughput len
                    (fastest_update (fastest_update fastest_init s1.times) s2.times))] ::
              (tr3 ++ [.printf "%1i-%-17.17s : %10u -> %7.1f MB/s\r"
                  [.int 3, .str name, .uint (len % 2 ^ 32),
                    .dbl (throughput len (fastest_update
                      (fastest_update (fastest_update fastest_init s1.times) s2.times)
                      s3.times))],
                .printf "%-19.19s : %10u -> %7.1f MB/s  \n"
                  [.str name, .uint (len % 2 ^ 32),
                    .dbl (throughput len (fastest_update
                      (fastest_update (fastest_update fastest_init s1.times) s2.times)
                      s3.times))]]))),
        c3⟩ := by
  have e3 := bench_trials_succ CPS h name buf len 0 (1 + 1 + 1)
    (fastest_update (fastest_update fastest_init s1.times) s2.times) c2 s3 tr3 c3 h3
  have e2 := bench_trials_succ CPS h name buf len (0 + 1) (1 + 1)
    (fastest_update fastest_init s1.times) c1 s2 tr2 c2 h2
  have e1 := bench_trials_succ CPS h name buf len (0 + 1 + 1) 1 fastest_init clk s1 tr1 c1 h1
  have e0 : ∀ (i : Nat) (f : Dbl) (c : List Int),
      bench_trials CPS h name buf len 0 i f c = ⟨.done f, [], c⟩ := fun _ _ _ => rfl
  rw [e0] at e3
  rw [e3] at e2
  rw [e2] at e1
  simp only [bench_xxh]
  have hk : g_iters + 1 - 1 = 0 + 1 + 1 + 1 := rfl
  rw [hk, Prog.bind_of_done (printf "\r%79s\r" [.str ""]) _ clk ()
    [.printf "\r%79s\r" [.str ""]] clk rfl]
  rw [Prog.bind_of_done (bench_trials CPS h name buf len (0 + 1 + 1 + 1) 1 fastest_init) _
    clk _ _ _ e1]
  simp [printf]

/-! ## Lemmas on doubles -/

theorem dbl_le_refl (a : Dbl) (h : a ≠ .nan) : a.le a = true := by
  cases a <;> simp [Dbl.le] at *

theorem dbl_le_trans {a b c : Dbl} (hab : a.le b = true) (hbc : b.le c = true) :
    a.le c = true := by
  cases a <;> cases b <;> cases c <;> simp [Dbl.le] at *
  exact le_trans hab hbc

theorem dbl_le_of_lt {a b : Dbl} (h : a.lt b = true) : a.le b = true := by
  cases a <;> cases b <;> simp [Dbl.lt, Dbl.le] at *
  exact le_of_lt h

theorem dbl_le_of_not_lt {a b : Dbl} (ha : a ≠ .nan) (hb : b ≠ .nan) (h : a.lt b = false) :
    b.le a = true := by
  cases a <;> cases b <;> simp [Dbl.lt, Dbl.le] at *
  exact h

theorem fastest_update_cases (f t : Dbl) :
    fastest_update f t = f ∨ (fastest_update f t = t ∧ t.lt f = true) := by
  unfold fastest_update
  by_cases h : t.lt f = true
  · right; simp [h]
  · left; simp [h]

theorem fastest_update_ne_nan (f t : Dbl) (hf : f ≠ .nan) : fastest_update f t ≠ .nan := by
  rcases fastest_update_cases f t with h | ⟨h, hlt⟩
  · rw [h]; exact hf
  · rw [h]
    intro ht
    rw [ht] at hlt
    cases f <;> simp [Dbl.lt] at hlt

theorem fastest_update_le_left (f t : Dbl) (hf : f ≠ .nan) :
    (fastest_update f t).le f = true := by
  rcases fastest_update_cases f t with h | ⟨h, hlt⟩
  · rw [h]; exact dbl_le_refl f hf
  · rw [h]; exact dbl_le_of_lt hlt

theorem fastest_update_le_right (f t : Dbl) (hf : f ≠ .nan) (ht : t ≠ .nan) :
    (fastest_update f t).le t = true := by
  unfold fastest_update
  by_cases h : t.lt f = true
  · simp only [h, if_true]; exact dbl_le_refl t ht
  · simp only [h]
    exact dbl_le_of_not_lt ht hf (by simpa using h)

/-- A positive double: a positive finite value or plus infinity. -/
theorem dbl_pos_cases {a : Dbl} (h : (Dbl.fin 0).lt a = true) :
    (∃ q, 0 < q ∧ a = .fin q) ∨ a = .pinf := by
  cases a <;> simp [Dbl.lt] at *
  assumption

/-- Dividing a non-negative finite value by a larger positive divisor gives no more. -/
theorem dbl_div_anti {x : ℚ} (hx : 0 ≤ x) {a b : Dbl} (ha : (Dbl.fin 0).lt a = true)
    (hab : a.le b = true) : ((Dbl.fin x).div b).le ((Dbl.fin x).div a) = true := by
  rcases dbl_pos_cases ha with ⟨p, hp, rfl⟩ | rfl
  · cases b with
    | fin q =>
        simp only [Dbl.le, decide_eq_true_eq] at hab
        have hq : 0 < q := lt_of_lt_of_le hp hab
        simp only [Dbl.div, ne_of_gt hp, ne_of_gt hq, if_false, Dbl.le, decide_eq_true_eq]
        exact div_le_div_of_nonneg_left hx hp hab
    | pinf =>
        simp only [Dbl.div, ne_of_gt hp, if_false, Dbl.le, decide_eq_true_eq]
        exact div_nonneg hx (le_of_lt hp)
    | ninf => simp [Dbl.le] at hab
    | nan => simp [Dbl.le] at hab
  · cases b <;> simp [Dbl.le, Dbl.div] at *

theorem throughput_anti (len : Nat) {a b : Dbl} (ha : (Dbl.fin 0).lt a = true)
    (hab : a.le b = true) : (throughput len b).le (throughput len a) = true := by
  have h20 : (Dbl.ofNat len).div (Dbl.ofInt (1 <<< 20)) = .fin ((len : ℚ) / 1048576) := by
    have h0 : (1 <<< 20 : Int) = 1048576 := by decide
    have : ((1 <<< 20 : Int) : ℚ) = 1048576 := by rw [h0]; norm_num
    simp [Dbl.ofNat, Dbl.ofInt, Dbl.div, this]
  unfold throughput
  rw [h20]
  exact dbl_div_anti (by positivity) ha hab

theorem throughput_pos (len : Nat) (hlen : 0 < len) (q : ℚ) (hq : 0 < q) :
    throughput len (.fin q) = .fin (((len : ℚ) / 1048576) / q)
      ∧ 0 < ((len : ℚ) / 1048576) / q := by
  have h20 : (Dbl.ofNat len).div (Dbl.ofInt (1 <<< 20)) = .fin ((len : ℚ) / 1048576) := by
    have h0 : (1 <<< 20 : Int) = 1048576 := by decide
    have : ((1 <<< 20 : Int) : ℚ) = 1048576 := by rw [h0]; norm_num
    simp [Dbl.ofNat, Dbl.ofInt, Dbl.div, this]
  have hl : (0 : ℚ) < len := by exact_mod_cast hlen
  constructor
  · unfold throughput
    rw [h20]
    simp [Dbl.div, ne_of_gt hq]
  · positivity
theorem dbl_not_le_of_lt {a b : Dbl} (h : a.lt b = true) : b.le a = false := by
  cases a <;> cases b <;> simp [Dbl.lt, Dbl.le] at *
  exact h

theorem dbl_ne_nan_of_lt {a b : Dbl} (h : a.lt b = true) : a ≠ .nan := by
  cases a <;> simp [Dbl.lt] at *

theorem dbl_ne_nan_of_pos {a : Dbl} (h : (Dbl.fin 0).lt a = true) : a ≠ .nan := by
  cases a <;> simp [Dbl.lt] at *

theorem fastest_of_ne_nan (t1 t2 t3 : Dbl) : fastest_of t1 t2 t3 ≠ .nan := by
  unfold fastest_of
  exact fastest_update_ne_nan _ _ (fastest_update_ne_nan _ _
    (fastest_update_ne_nan _ _ (by simp [fastest_init])))

theorem fastest_of_mem (t1 t2 t3 : Dbl) :
    fastest_of t1 t2 t3 = fastest_init ∨ fastest_of t1 t2 t3 = t1
      ∨ fastest_of t1 t2 t3 = t2 ∨ fastest_of t1 t2 t3 = t3 := by
  unfold fastest_of
  rcases fastest_update_cases (fastest_update (fastest_update fastest_init t1) t2) t3
    with h3 | ⟨h3, -⟩
  · rw [h3]
    rcases fastest_update_cases (fastest_update fastest_init t1) t2 with h2 | ⟨h2, -⟩
    · rw [h2]
      rcases fastest_update_cases fastest_init t1 with h1 | ⟨h1, -⟩
      · exact Or.inl h1
      · exact Or.inr (Or.inl h1)
    · exact Or.inr (Or.inr (Or.inl h2))
  · exact Or.inr (Or.inr (Or.inr h3))

theorem fastest_of_le_init (t1 t2 t3 : Dbl) : (fastest_of t1 t2 t3).le fastest_init = true := by
  have n0 : fastest_init ≠ .nan := by simp [fastest_init]
  have n1 := fastest_update_ne_nan fastest_init t1 n0
  have n2 := fastest_update_ne_nan _ t2 n1
  exact dbl_le_trans (fastest_update_le_left _ t3 n2)
    (dbl_le_trans (fastest_update_le_left _ t2 n1) (fastest_update_le_left _ t1 n0))

theorem fastest_of_le_1 (t1 t2 t3 : Dbl) (h : t1 ≠ .nan) : (fastest_of t1 t2 t3).le t1 = true := by
  have n0 : fastest_init ≠ .nan := by simp [fastest_init]
  have n1 := fastest_update_ne_nan fastest_init t1 n0
  have n2 := fastest_update_ne_nan _ t2 n1
  exact dbl_le_trans (fastest_update_le_left _ t3 n2)
    (dbl_le_trans (fastest_update_le_left _ t2 n1) (fastest_update_le_right _ t1 n0 h))

theorem fastest_of_le_2 (t1 t2 t3 : Dbl) (h : t2 ≠ .nan) : (fastest_of t1 t2 t3).le t2 = true := by
  have n0 : fastest_init ≠ .nan := by simp [fastest_init]
  have n1 := fastest_update_ne_nan fastest_init t1 n0
  have n2 := fastest_update_ne_nan _ t2 n1
  exact dbl_le_trans (fastest_update_le_left _ t3 n2) (fastest_update_le_right _ t2 n1 h)

theorem fastest_of_le_3 (t1 t2 t3 : Dbl) (h : t3 ≠ .nan) : (fastest_of t1 t2 t3).le t3 = true := by
  have n0 : fastest_init ≠ .nan := by simp [fastest_init]
  have n1 := fastest_update_ne_nan fastest_init t1 n0
  have n2 := fastest_update_ne_nan _ t2 n1
  exact fastest_update_le_right _ t3 n2 h

theorem fastest_of_pos (t1 t2 t3 : Dbl) (h1 : (Dbl.fin 0).lt t1 = true)
    (h2 : (Dbl.fin 0).lt t2 = true) (h3 : (Dbl.fin 0).lt t3 = true) :
    (Dbl.fin 0).lt (fastest_of t1 t2 t3) = true := by
  rcases fastest_of_mem t1 t2 t3 with h | h | h | h <;> rw [h]
  · simp [fastest_init, Dbl.lt]
  · exact h1
  · exact h2
  · exact h3

/-! ## Best of three -/

/-- When the three trials return, `bench_xxh` returns and its last call prints the
throughput computed from the final `fastest`. -/
theorem bench_xxh_report (CPS : Int) (h : Ptr → Nat → Nat → Traced Nat)
    (name : String) (buf : Ptr) (len : Nat) (clk c1 c2 c3 : List Int) (s1 s2 s3 : Sample)
    (tr1 tr2 tr3 : List Event)
    (h1 : bench_trial CPS h name buf len 1 clk = ⟨.done s1, tr1, c1⟩)
    (h2 : bench_trial CPS h name buf len 2 c1 = ⟨.done s2, tr2, c2⟩)
    (h3 : bench_trial CPS h name buf len 3 c2 = ⟨.done s3, tr3, c3⟩) :
    (bench_xxh CPS h name buf len clk).status = .done ()
      ∧ (bench_xxh CPS h name buf len clk).trace.getLast?
          = some (.printf "%-19.19s : %10u -> %7.1f MB/s  \n"
              [.str name, .uint (len % 2 ^ 32),
                .dbl (throughput len (fastest_of s1.times s2.times s3.times))]) := by
  have hrun := bench_xxh_of_trials CPS h name buf len clk c1 c2 c3 s1 s2 s3 tr1 tr2 tr3 h1 h2 h3
  refine ⟨by rw [hrun], ?_⟩
  rw [hrun]
  simp only [fastest_of]
  generalize fastest_update (fastest_update (fastest_update fastest_init s1.times) s2.times)
    s3.times = F
  have e : ∀ (a b c d z : Event), a :: (tr1 ++ b :: (tr2 ++ c :: (tr3 ++ [d, z])))
      = (a :: (tr1 ++ b :: (tr2 ++ c :: (tr3 ++ [d])))) ++ [z] := by
    intro a b c d z
    simp
  rw [e, List.getLast?_concat]

/-- C5 (as amended): when the three trials of `bench_xxh` return with per-call times `t1`, `t2`,
`t3` (per-call time = elapsed seconds of the trial / calls counted in the trial), `bench_xxh`
returns and the throughput it finally reports is `(len / 2^20) / fastest`, where `fastest`
is the minimum of the initial bound `100000000` and the three per-call times: it is one of
these four values, it is at most the bound and at most every per-call time that is not a
NaN.  When some per-call time is below the bound, `fastest` is one of the three per-call
times, hence their minimum.  When the three per-call times are positive, the reported
throughput is never less than the throughput implied by any single trial. -/
theorem bench_xxh_best_of_three (CPS : Int) (h : Ptr → Nat → Nat → Traced Nat)
    (name : String) (buf : Ptr) (len : Nat) (clk c1 c2 c3 : List Int) (s1 s2 s3 : Sample)
    (tr1 tr2 tr3 : List Event)
    (h1 : bench_trial CPS h name buf len 1 clk = ⟨.done s1, tr1, c1⟩)
    (h2 : bench_trial CPS h name buf len 2 c1 = ⟨.done s2, tr2, c2⟩)
    (h3 : bench_trial CPS h name buf len 3 c2 = ⟨.done s3, tr3, c3⟩) :
    (bench_xxh CPS h name buf len clk).status = .done ()
      ∧ (bench_xxh CPS h name buf len clk).trace.getLast?
          = some (.printf "%-19.19s : %10u -> %7.1f MB/s  \n"
              [.str name, .uint (len % 2 ^ 32),
                .dbl (throughput len (fastest_of s1.times s2.times s3.times))])
      ∧ (∀ s ∈ [s1, s2, s3], ∃ elapsed : Int,
          s.times = ((Dbl.ofInt elapsed).div (Dbl.ofInt CPS)).div (Dbl.ofNat s.count))
      ∧ (fastest_of s1.times s2.times s3.times = fastest_init
          ∨ fastest_of s1.times s2.times s3.times = s1.times
          ∨ fastest_of s1.times s2.times s3.times = s2.times
          ∨ fastest_of s1.times s2.times s3.times = s3.times)
      ∧ (fastest_of s1.times s2.times s3.times).le fastest_init = true
      ∧ (∀ s ∈ [s1, s2, s3], s.times ≠ .nan →
          (fastest_of s1.times s2.times s3.times).le s.times = true)
      ∧ ((∃ s ∈ [s1, s2, s3], s.times.lt fastest_init = true) →
          fastest_of s1.times s2.times s3.times = s1.times
          ∨ fastest_of s1.times s2.times s3.times = s2.times
          ∨ fastest_of s1.times s2.times s3.times = s3.times)
      ∧ ((∀ s ∈ [s1, s2, s3], (Dbl.fin 0).lt s.times = true) →
          ∀ s ∈ [s1, s2, s3], (throughput len s.times).le
            (throughput len (fastest_of s1.times s2.times s3.times)) = true) := by
  have hrep := bench_xxh_report CPS h name buf len clk c1 c2 c3 s1 s2 s3 tr1 tr2 tr3 h1 h2 h3
  have hle : ∀ s ∈ [s1, s2, s3], s.times ≠ .nan →
      (fastest_of s1.times s2.times s3.times).le s.times = true := by
    intro s hs hn
    simp only [List.mem_cons, List.mem_singleton, List.not_mem_nil, or_false] at hs
    rcases hs with rfl | rfl | rfl
    · exact fastest_of_le_1 _ _ _ hn
    · exact fastest_of_le_2 _ _ _ hn
    · exact fastest_of_le_3 _ _ _ hn
  refine ⟨hrep.1, hrep.2, ?_, fastest_of_mem _ _ _, fastest_of_le_init _ _ _, hle, ?_, ?_⟩
  · intro s hs
    simp only [List.mem_cons, List.mem_singleton, List.not_mem_nil, or_false] at hs
    rcases hs with rfl | rfl | rfl
    · obtain ⟨_, _, _, start, _, _, tf, -, -, -, -, -, ht, -⟩ :=
        bench_trial_done _ _ _ _ _ _ _ _ _ _ h1
      exact ⟨tf - start, ht⟩
    · obtain ⟨_, _, _, start, _, _, tf, -, -, -, -, -, ht, -⟩ :=
        bench_trial_done _ _ _ _ _ _ _ _ _ _ h2
      exact ⟨tf - start, ht⟩
    · obtain ⟨_, _, _, start, _, _, tf, -, -, -, -, -, ht, -⟩ :=
        bench_trial_done _ _ _ _ _ _ _ _ _ _ h3
      exact ⟨tf - start, ht⟩
  · rintro ⟨s, hs, hlt⟩
    rcases fastest_of_mem s1.times s2.times s3.times with hF | hF
    · exfalso
      have := hle s hs (dbl_ne_nan_of_lt hlt)
      rw [hF, dbl_not_le_of_lt hlt] at this
      exact Bool.false_ne_true this
    · exact hF
  · intro hpos s hs
    have p1 := hpos s1 (by simp)
    have p2 := hpos s2 (by simp)
    have p3 := hpos s3 (by simp)
    exact throughput_anti len (fastest_of_pos _ _ _ p1 p2 p3)
      (hle s hs (dbl_ne_nan_of_pos (hpos s hs)))

/-- Counterexample to C5 as stated: with `CLOCKS_PER_SEC = 1000000` and the readings
`slow_clk`, each of the three trials counts 100 calls in `2 * 10^16` ticks, a per-call time
of `200000000` seconds; `fastest` keeps its initial value `100000000`, so the reported
throughput is `(len / 2^20) / 100000000` and not `(len / 2^20)` divided by the minimum
`200000000` of the three per-call times. -/
theorem bench_xxh_initial_bound_reported :
    (bench_trial 1000000 (bench_xxh32 sumProvider) "XXH32" ⟨[0x5A], 0⟩ 1 1 slow_clk).status
        = .done ⟨100, 162550, .fin 200000000⟩
      ∧ (bench_trial 1000000 (bench_xxh32 sumProvider) "XXH32" ⟨[0x5A], 0⟩ 1 2
          (slow_clk.drop 6)).status = .done ⟨100, 162550, .fin 200000000⟩
      ∧ (bench_trial 1000000 (bench_xxh32 sumProvider) "XXH32" ⟨[0x5A], 0⟩ 1 3
          (slow_clk.drop 12)).status = .done ⟨100, 162550, .fin 200000000⟩
      ∧ (bench_xxh 1000000 (bench_xxh32 sumProvider) "XXH32" ⟨[0x5A], 0⟩ 1 slow_clk).status
        = .done ()
      ∧ (bench_xxh 1000000 (bench_xxh32 sumProvider) "XXH32" ⟨[0x5A], 0⟩ 1 slow_clk).trace.getLast?
        = some (.printf "%-19.19s : %10u -> %7.1f MB/s  \n"
            [.str "XXH32", .uint 1, .dbl (throughput 1 (.fin 100000000))])
      ∧ throughput 1 (.fin 100000000) ≠ throughput 1 (.fin 200000000) := by
  decide!

/-- With `CLOCKS_PER_SEC = 10` and the readings `quick_clk`, the three trials take 12, 11 and 14
ticks for 100 calls each; the reported throughput is that of the second trial and is not
less than that of the third. -/
theorem bench_xxh_best_of_three_witness :
    (bench_xxh 10 (bench_xxh32 sumProvider) "XXH32" ⟨[0x5A], 0⟩ 1 quick_clk).trace.getLast?
        = some (.printf "%-19.19s : %10u -> %7.1f MB/s  \n"
            [.str "XXH32", .uint (1 % 2 ^ 32),
              .dbl (throughput 1 (fastest_of (.fin (12 / 1000)) (.fin (11 / 1000))
                (.fin (14 / 1000))))])
      ∧ fastest_of (.fin (12 / 1000)) (.fin (11 / 1000)) (.fin (14 / 1000)) = .fin (11 / 1000)
      ∧ (throughput 1 (.fin (14 / 1000))).le
          (throughput 1 (fastest_of (.fin (12 / 1000)) (.fin (11 / 1000)) (.fin (14 / 1000))))
        = true :=
  have key := bench_xxh_best_of_three 10 (bench_xxh32 sumProvider) "XXH32" ⟨[0x5A], 0⟩ 1
    quick_clk (quick_clk.drop 6) (quick_clk.drop 12) []
    ⟨100, 162550, .fin (12 / 1000)⟩ ⟨100, 162550, .fin (11 / 1000)⟩
    ⟨100, 162550, .fin (14 / 1000)⟩
    (bench_trial 10 (bench_xxh32 sumProvider) "XXH32" ⟨[0x5A], 0⟩ 1 1 quick_clk).trace
    (bench_trial 10 (bench_xxh32 sumProvider) "XXH32" ⟨[0x5A], 0⟩ 1 2 (quick_clk.drop 6)).trace
    (bench_trial 10 (bench_xxh32 sumProvider) "XXH32" ⟨[0x5A], 0⟩ 1 3 (quick_clk.drop 12)).trace
    (by decide!) (by decide!) (by decide!)
  ⟨key.2.1, by decide!,
    key.2.2.2.2.2.2.2 (by decide!) ⟨100, 162550, .fin (14 / 1000)⟩ (by simp)⟩

/-! ## Positive throughput -/

/-- The per-call time of a trial whose elapsed time is at least `CLOCKS_PER_SEC`: positive,
finite when `count` is not zero and plus infinity when it is. -/
theorem times_of_elapsed (CPS elapsed : Int) (cnt : Nat) (hCPS : 0 < CPS)
    (hel : CPS ≤ elapsed) :
    (Dbl.fin 0).lt (((Dbl.ofInt elapsed).div (Dbl.ofInt CPS)).div (Dbl.ofNat cnt)) = true
      ∧ (cnt ≠ 0 → ∃ q : ℚ, 0 < q
          ∧ ((Dbl.ofInt elapsed).div (Dbl.ofInt CPS)).div (Dbl.ofNat cnt) = .fin q)
      ∧ (cnt = 0 → ((Dbl.ofInt elapsed).div (Dbl.ofInt CPS)).div (Dbl.ofNat cnt) = .pinf) := by
  have hc : (0 : ℚ) < (CPS : ℚ) := by exact_mod_cast hCPS
  have he : (0 : ℚ) < (elapsed : ℚ) := by exact_mod_cast (lt_of_lt_of_le hCPS hel)
  have hq : (0 : ℚ) < (elapsed : ℚ) / (CPS : ℚ) := div_pos he hc
  have e1 : (Dbl.ofInt elapsed).div (Dbl.ofInt CPS) = .fin ((elapsed : ℚ) / (CPS : ℚ)) := by
    simp [Dbl.ofInt, Dbl.div, ne_of_gt hc]
  rw [e1]
  by_cases h0 : cnt = 0
  · subst h0
    have : (Dbl.fin ((elapsed : ℚ) / (CPS : ℚ))).div (Dbl.ofNat 0) = .pinf := by
      simp [Dbl.ofNat, Dbl.div, ne_of_gt hq, hq]
    rw [this]
    simp [Dbl.lt]
  · have hn : (0 : ℚ) < (cnt : ℚ) := by exact_mod_cast Nat.pos_of_ne_zero h0
    have : (Dbl.fin ((elapsed : ℚ) / (CPS : ℚ))).div (Dbl.ofNat cnt)
        = .fin ((elapsed : ℚ) / (CPS : ℚ) / (cnt : ℚ)) := by
      simp [Dbl.ofNat, Dbl.div, ne_of_gt hn]
    rw [this]
    have hpos : (0 : ℚ) < (elapsed : ℚ) / (CPS : ℚ) / (cnt : ℚ) := div_pos hq hn
    exact ⟨by simpa [Dbl.lt] using hpos, fun _ => ⟨_, hpos, rfl⟩, fun h => absurd h h0⟩

/-- Under a clock that never goes back, a trial that returned has measured an elapsed time of
at least `CLOCKS_PER_SEC`, and the readings it leaves never go back either. -/
theorem bench_trial_elapsed (CPS : Int) (h : Ptr → Nat → Nat → Traced Nat) (name : String)
    (buf : Ptr) (len i : Nat) (clk : List Int) (s : Sample) (tr : List Event) (c' : List Int)
    (hmono : clk.Pairwise (fun a b => a ≤ b))
    (hrun : bench_trial CPS h name buf len i clk = ⟨.done s, tr, c'⟩) :
    c'.Pairwise (fun a b => a ≤ b) ∧ ∃ elapsed : Int, CPS ≤ elapsed
      ∧ s.times = ((Dbl.ofInt elapsed).div (Dbl.ofInt CPS)).div (Dbl.ofNat s.count) := by
  obtain ⟨s0, m, t1, start, ts, t, tf, rfl, -, -, ht, -, htimes, -⟩ :=
    bench_trial_done _ _ _ _ _ _ _ _ _ _ hrun
  have h1 := (List.pairwise_cons.1 hmono).2
  have h2 := (List.pairwise_append.1 h1).2.1
  have h3 := (List.pairwise_cons.1 h2).2
  have hstart := List.pairwise_cons.1 h3
  have h4 := List.pairwise_append.1 hstart.2
  have h5 := List.pairwise_cons.1 h4.2.1
  have h6 := List.pairwise_cons.1 h5.2
  refine ⟨h6.2, tf - start, ?_, htimes⟩
  have a1 : t ≤ tf := h5.1 tf (List.mem_cons_self _ _)
  omega

/-- C6 (as amended): for a buffer length `len > 0`, `CLOCKS_PER_SEC > 0` and every
non-decreasing sequence of clock readings for which the three trials return, the per-call
time of each trial is positive: finite when the trial's `count` is not zero, plus infinity
when `count` is zero.  `fastest` ends positive, finite and at most `100000000`, and the
throughput `(len / 2^20) / fastest` that `bench_xxh` finally reports is strictly positive
and finite. -/
theorem bench_xxh_throughput_positive (CPS : Int) (hCPS : 0 < CPS)
    (h : Ptr → Nat → Nat → Traced Nat) (name : String) (buf : Ptr) (len : Nat)
    (hlen : 0 < len) (clk c1 c2 c3 : List Int) (s1 s2 s3 : Sample) (tr1 tr2 tr3 : List Event)
    (hmono : clk.Pairwise (fun a b => a ≤ b))
    (h1 : bench_trial CPS h name buf len 1 clk = ⟨.done s1, tr1, c1⟩)
    (h2 : bench_trial CPS h name buf len 2 c1 = ⟨.done s2, tr2, c2⟩)
    (h3 : bench_trial CPS h name buf len 3 c2 = ⟨.done s3, tr3, c3⟩) :
    (∀ s ∈ [s1, s2, s3], (Dbl.fin 0).lt s.times = true
        ∧ (s.count ≠ 0 → ∃ q : ℚ, 0 < q ∧ s.times = .fin q)
        ∧ (s.count = 0 → s.times = .pinf))
      ∧ (∃ q : ℚ, 0 < q ∧ q ≤ 100000000 ∧ fastest_of s1.times s2.times s3.times = .fin q)
      ∧ (bench_xxh CPS h name buf len clk).status = .done ()
      ∧ (∃ q : ℚ, 0 < q ∧ (bench_xxh CPS h name buf len clk).trace.getLast?
          = some (.printf "%-19.19s : %10u -> %7.1f MB/s  \n"
              [.str name, .uint (len % 2 ^ 32), .dbl (.fin q)])) := by
  obtain ⟨m1, e1, he1, ht1⟩ := bench_trial_elapsed _ _ _ _ _ _ _ _ _ _ hmono h1
  obtain ⟨m2, e2, he2, ht2⟩ := bench_trial_elapsed _ _ _ _ _ _ _ _ _ _ m1 h2
  obtain ⟨-, e3, he3, ht3⟩ := bench_trial_elapsed _ _ _ _ _ _ _ _ _ _ m2 h3
  have k1 := times_of_elapsed CPS e1 s1.count hCPS he1
  have k2 := times_of_elapsed CPS e2 s2.count hCPS he2
  have k3 := times_of_elapsed CPS e3 s3.count hCPS he3
  rw [← ht1] at k1
  rw [← ht2] at k2
  rw [← ht3] at k3
  have hF : ∃ q : ℚ, 0 < q ∧ q ≤ 100000000 ∧ fastest_of s1.times s2.times s3.times = .fin q := by
    have hp := fastest_of_pos _ _ _ k1.1 k2.1 k3.1
    have hl := fastest_of_le_init s1.times s2.times s3.times
    rcases dbl_pos_cases hp with ⟨q, hq, hFq⟩ | hinf
    · rw [hFq] at hl
      simp only [fastest_init, Dbl.le, decide_eq_true_eq] at hl
      exact ⟨q, hq, hl, hFq⟩
    · rw [hinf] at hl
      simp [fastest_init, Dbl.le] at hl
  have key := bench_xxh_report CPS h name buf len clk c1 c2 c3 s1 s2 s3 tr1 tr2 tr3 h1 h2 h3
  refine ⟨?_, hF, key.1, ?_⟩
  · intro s hs
    simp only [List.mem_cons, List.mem_singleton, List.not_mem_nil, or_false] at hs
    rcases hs with rfl | rfl | rfl
    · exact k1
    · exact k2
    · exact k3
  · obtain ⟨q, hq, -, hFq⟩ := hF
    have tp := throughput_pos len hlen q hq
    refine ⟨_, tp.2, ?_⟩
    rw [key.2, hFq, tp.1]

/-- Counterexample to C6 as stated: with `CLOCKS_PER_SEC = 1000000` and the non-decreasing
readings `jump_clk`, `bench_xxh` returns, and in its first trial the first reading of the
timed loop is already a full second after its start, so the loop runs no batch, the trial
ends with `count = 0`, and the per-call time `1 / 0` is plus infinity. -/
theorem bench_trial_zero_count :
    jump_clk.Pairwise (fun a b => a ≤ b)
      ∧ (bench_xxh 1000000 (bench_xxh32 sumProvider) "XXH32" ⟨[0x5A], 0⟩ 1 jump_clk).status
        = .done ()
      ∧ bench_trial 1000000 (bench_xxh32 sumProvider) "XXH32" ⟨[0x5A], 0⟩ 1 1 jump_clk
        = ⟨.done ⟨0, 0, .pinf⟩,
            [.printf "%1i-%-17.17s : %10u ->\r" [.int 1, .str "XXH32", .uint 1],
              .clock 0, .clock 1, .clock 1, .clock 1000001, .printf "." [], .clock 1000001],
            jump_clk.drop 5⟩ := by
  decide!

/-- With `CLOCKS_PER_SEC = 10` and the readings `quick_clk`, the reported throughput is
positive and finite. -/
theorem bench_xxh_throughput_positive_witness :
    ∃ q : ℚ, 0 < q
      ∧ (bench_xxh 10 (bench_xxh32 sumProvider) "XXH32" ⟨[0x5A], 0⟩ 1 quick_clk).trace.getLast?
        = some (.printf "%-19.19s : %10u -> %7.1f MB/s  \n"
            [.str "XXH32", .uint (1 % 2 ^ 32), .dbl (.fin q)]) :=
  (bench_xxh_throughput_positive 10 (by decide) (bench_xxh32 sumProvider) "XXH32" ⟨[0x5A], 0⟩ 1
    (by decide) quick_clk (quick_clk.drop 6) (quick_clk.drop 12) []
    ⟨100, 162550, .fin (12 / 1000)⟩ ⟨100, 162550, .fin (11 / 1000)⟩
    ⟨100, 162550, .fin (14 / 1000)⟩
    (bench_trial 10 (bench_xxh32 sumProvider) "XXH32" ⟨[0x5A], 0⟩ 1 1 quick_clk).trace
    (bench_trial 10 (bench_xxh32 sumProvider) "XXH32" ⟨[0x5A], 0⟩ 1 2 (quick_clk.drop 6)).trace
    (bench_trial 10 (bench_xxh32 sumProvider) "XXH32" ⟨[0x5A], 0⟩ 1 3 (quick_clk.drop 12)).trace
    (by decide!) (by decide!) (by decide!) (by decide!)).2.2.2

/-! ## The hash calls of a trial -/

theorem filter_isHash_batches (ts : List Int) (B : List Event)
    (hB : ∀ e ∈ B, e.isHash = true) :
    ((ts.map (fun x => Event.clock x :: B)).flatten).filter Event.isHash
      = (List.replicate ts.length B).flatten := by
  induction ts with
  | nil => rfl
  | cons t ts ih =>
      simp only [List.map_cons, List.flatten_cons, List.cons_append, List.length_cons,
        List.replicate_succ]
      rw [List.filter_cons_of_neg (by simp [Event.isHash]), List.filter_append, ih]
      congr 1
      exact List.filter_eq_self.2 hB

/-- The calls of a trial that returned, for a hash function `h` that makes the single call
`ev j` when called with seed `j`. -/
theorem trial_calls_of_event (CPS : Int) (h : Ptr → Nat → Nat → Traced Nat) (ev : Nat → Event)
    (name : String) (buf : Ptr) (len i : Nat)
    (hev : ∀ j, (h buf len j).1 = [ev j]) (hhash : ∀ j, (ev j).isHash = true)
    (clk : List Int) (s : Sample) (tr : List Event) (c' : List Int)
    (hrun : bench_trial CPS h name buf len i clk = ⟨.done s, tr, c'⟩) :
    ∃ (pre : List Event) (ts : List Int) (post : List Event),
      tr = pre ++ (ts.map (fun x => Event.clock x :: (List.range 100).map ev)).flatten ++ post
      ∧ (∀ e ∈ pre, e.isHash = false) ∧ (∀ e ∈ post, e.isHash = false)
      ∧ tr.filter Event.isHash = (List.replicate ts.length ((List.range 100).map ev)).flatten
      ∧ (tr.filter Event.isHash).length = 100 * ts.length
      ∧ s.count = (100 * ts.length) % 2 ^ 32 := by
  obtain ⟨s0, m, t1, start, ts, t, tf, -, -, -, -, hcnt, -, htr⟩ :=
    bench_trial_done _ _ _ _ _ _ _ _ _ _ hrun
  have hB : ((List.range perloop).map (fun j => (h buf len j).1)).flatten
      = (List.range 100).map ev := by
    simp only [hev, perloop]
    induction (List.range 100) with
    | nil => rfl
    | cons a l ih => simp [ih]
  rw [hB] at htr
  have hBh : ∀ e ∈ (List.range 100).map ev, e.isHash = true := by
    intro e he
    obtain ⟨j, -, rfl⟩ := List.mem_map.1 he
    exact hhash j
  let pre : List Event :=
    .printf "%1i-%-17.17s : %10u ->\r" [.int i, .str name, .uint (len % 2 ^ 32)]
      :: .clock s0 :: (List.replicate m (.clock s0) ++ [.clock t1, .clock start])
  let post : List Event :=
    .clock t :: ((if s.r = 0 then [.printf "." []] else []) ++ [.clock tf])
  have hpre : ∀ e ∈ pre, e.isHash = false := by
    intro e he
    simp only [pre, List.mem_cons, List.mem_append, List.mem_replicate, List.mem_singleton,
      List.not_mem_nil, or_false] at he
    rcases he with rfl | rfl | ⟨-, rfl⟩ | rfl | rfl <;> rfl
  have hpost : ∀ e ∈ post, e.isHash = false := by
    intro e he
    simp only [post, List.mem_cons, List.mem_append, List.mem_singleton,
      List.not_mem_nil, or_false] at he
    rcases he with rfl | he | rfl
    · rfl
    · by_cases hr : s.r = 0
      · simp only [hr, if_true, List.mem_singleton] at he
        rw [he]; rfl
      · simp [hr] at he
    · rfl
  have htr2 : tr = pre ++ (ts.map (fun x => Event.clock x :: (List.range 100).map ev)).flatten
      ++ post := by
    rw [htr]
    simp [pre, post]
  have hfilter : tr.filter Event.isHash
      = (List.replicate ts.length ((List.range 100).map ev)).flatten := by
    rw [htr2, List.filter_append, List.filter_append, filter_isHash_batches ts _ hBh]
    rw [List.filter_eq_nil_iff.2 (fun e he => by simp [hpre e he]),
      List.filter_eq_nil_iff.2 (fun e he => by simp [hpost e he])]
    simp
  refine ⟨pre, ts, post, htr2, hpre, hpost, hfilter, ?_, ?_⟩
  · rw [hfilter]
    simp [List.length_flatten, Nat.mul_comm]
  · simpa [perloop] using hcnt

/-- C9 (as amended): in a trial of `bench_xxh` that returns, the hash calls come in batches
of exactly 100, one batch after each clock check that finds the second not yet elapsed, and
within each batch the seeds are the loop counter `j = 0, 1, ..., 99` in order, so they
increase from one call to the next inside a batch and start again at 0 in the next batch.
The number of hash calls made in the trial is 100 times the number of batches, and `count`
at the end of the trial equals it modulo `2^32`. -/
theorem bench_trial_calls (P : HashProvider) (CPS : Int) (name : String) (buf : Ptr)
    (len i : Nat) (clk : List Int) (s : Sample) (tr : List Event) (c' : List Int) :
    (bench_trial CPS (bench_xxh32 P) name buf len i clk = ⟨.done s, tr, c'⟩ →
      ∃ (pre : List Event) (ts : List Int) (post : List Event),
        tr = pre ++ (ts.map (fun x => Event.clock x ::
              (List.range 100).map (fun j => Event.XXH32 buf len j))).flatten ++ post
        ∧ (∀ e ∈ pre, e.isHash = false) ∧ (∀ e ∈ post, e.isHash = false)
        ∧ tr.filter Event.isHash = (List.replicate ts.length
            ((List.range 100).map (fun j => Event.XXH32 buf len j))).flatten
        ∧ (tr.filter Event.isHash).length = 100 * ts.length
        ∧ s.count = (100 * ts.length) % 2 ^ 32)
      ∧ (bench_trial CPS (bench_xxh64 P) name buf len i clk = ⟨.done s, tr, c'⟩ →
        ∃ (pre : List Event) (ts : List Int) (post : List Event),
          tr = pre ++ (ts.map (fun x => Event.clock x ::
                (List.range 100).map (fun j => Event.XXH64 buf len j))).flatten ++ post
          ∧ (∀ e ∈ pre, e.isHash = false) ∧ (∀ e ∈ post, e.isHash = false)
          ∧ tr.filter Event.isHash = (List.replicate ts.length
              ((List.range 100).map (fun j => Event.XXH64 buf len j))).flatten
          ∧ (tr.filter Event.isHash).length = 100 * ts.length
          ∧ s.count = (100 * ts.length) % 2 ^ 32) :=
  ⟨trial_calls_of_event CPS (bench_xxh32 P) (fun j => Event.XXH32 buf len j) name buf len i
      (fun _ => rfl) (fun _ => rfl) clk s tr c',
    trial_calls_of_event CPS (bench_xxh64 P) (fun j => Event.XXH64 buf len j) name buf len i
      (fun _ => rfl) (fun _ => rfl) clk s tr c'⟩

/-- Counterexample to C9 as stated: with `CLOCKS_PER_SEC = 10` and the readings
`two_batch_clk`, `bench_xxh` returns; its first trial runs two batches and ends with
`count = 200`, and the 100th and 101st hash calls of that trial, which are successive, carry
the seeds 99 and 0. -/
theorem bench_trial_seed_restarts :
    (bench_xxh 10 (bench_xxh32 sumProvider) "XXH32" ⟨[0x5A], 0⟩ 1 two_batch_clk).status
        = .done ()
      ∧ (bench_trial 10 (bench_xxh32 sumProvider) "XXH32" ⟨[0x5A], 0⟩ 1 1 two_batch_clk).status
        = .done ⟨200, 325100, .fin (12 / 2000)⟩
      ∧ ((bench_trial 10 (bench_xxh32 sumProvider) "XXH32" ⟨[0x5A], 0⟩ 1 1
            two_batch_clk).trace.filter Event.isHash)[99]?
          = some (.XXH32 ⟨[0x5A], 0⟩ 1 99)
      ∧ ((bench_trial 10 (bench_xxh32 sumProvider) "XXH32" ⟨[0x5A], 0⟩ 1 1
            two_batch_clk).trace.filter Event.isHash)[100]?
          = some (.XXH32 ⟨[0x5A], 0⟩ 1 0) := by
  decide!

/-- The first trial on the readings `two_batch_clk` makes 200 hash calls, in two batches. -/
theorem bench_trial_calls_witness :
    ∃ (pre : List Event) (ts : List Int) (post : List Event),
      (bench_trial 10 (bench_xxh32 sumProvider) "XXH32" ⟨[0x5A], 0⟩ 1 1 two_batch_clk).trace
        = pre ++ (ts.map (fun x => Event.clock x ::
            (List.range 100).map (fun j => Event.XXH32 ⟨[0x5A], 0⟩ 1 j))).flatten ++ post
      ∧ (∀ e ∈ pre, e.isHash = false) ∧ (∀ e ∈ post, e.isHash = false)
      ∧ (bench_trial 10 (bench_xxh32 sumProvider) "XXH32" ⟨[0x5A], 0⟩ 1 1
          two_batch_clk).trace.filter Event.isHash
        = (List.replicate ts.length
            ((List.range 100).map (fun j => Event.XXH32 ⟨[0x5A], 0⟩ 1 j))).flatten
      ∧ ((bench_trial 10 (bench_xxh32 sumProvider) "XXH32" ⟨[0x5A], 0⟩ 1 1
          two_batch_clk).trace.filter Event.isHash).length = 100 * ts.length
      ∧ 200 = (100 * ts.length) % 2 ^ 32 :=
  (bench_trial_calls sumProvider 10 "XXH32" ⟨[0x5A], 0⟩ 1 1 two_batch_clk
    ⟨200, 325100, .fin (12 / 2000)⟩
    (bench_trial 10 (bench_xxh32 sumProvider) "XXH32" ⟨[0x5A], 0⟩ 1 1 two_batch_clk).trace
    (two_batch_clk.drop 7)).1 (by decide!)

/-! ## The hash calls of the benchmark -/

theorem bench_batch_mem (h : Ptr → Nat → Nat → Traced Nat) (buf : Ptr) (len r : Nat)
    (e : Event) (he : e ∈ (bench_batch h buf len (perloop - 0) 0 r).1) :
    ∃ j, j < 100 ∧ e ∈ (h buf len j).1 := by
  rw [bench_batch_trace] at he
  simp only [List.mem_flatten, List.mem_map, List.mem_range] at he
  obtain ⟨l, ⟨j, hj, rfl⟩, hel⟩ := he
  exact ⟨j, by simpa [perloop] using hj, by simpa using hel⟩

theorem bench_timed_mem (CPS : Int) (h : Ptr → Nat → Nat → Traced Nat) (buf : Ptr) (len : Nat)
    (start : Int) (count r : Nat) (clk : List Int) (e : Event)
    (he : e ∈ (bench_timed CPS h buf len start count r clk).trace) :
    e.isHash = false ∨ ∃ j, j < 100 ∧ e ∈ (h buf len j).1 := by
  induction clk generalizing count r with
  | nil => simp [bench_timed] at he
  | cons t c ih =>
      simp only [bench_timed] at he
      by_cases ht : t - start < CPS
      · simp only [ht, if_true, List.mem_cons, List.mem_append] at he
        rcases he with rfl | he | he
        · exact Or.inl rfl
        · exact Or.inr (bench_batch_mem h buf len r e he)
        · exact ih _ _ he
      · simp only [ht, if_false, List.mem_singleton] at he
        rw [he]
        exact Or.inl rfl

theorem printf_mem (fmt : String) (args : List Arg) (clk : List Int) (e : Event)
    (he : e ∈ (printf fmt args clk).trace) : e.isHash = false := by
  simp only [printf, List.mem_singleton] at he
  rw [he]; rfl

theorem clock_mem (clk : List Int) (e : Event) (he : e ∈ (clock clk).trace) :
    e.isHash = false := by
  cases clk with
  | nil => simp [clock] at he
  | cons t c =>
      simp only [clock, List.mem_singleton] at he
      rw [he]; rfl

theorem pure_mem {α : Type} (a : α) (clk : List Int) (e : Event)
    (he : e ∈ ((pure a : Prog α) clk).trace) : False := by
  simp [Prog.pure_apply] at he

theorem bench_trial_mem (CPS : Int) (h : Ptr → Nat → Nat → Traced Nat) (name : String)
    (buf : Ptr) (len i : Nat) (clk : List Int) (e : Event)
    (he : e ∈ (bench_trial CPS h name buf len i clk).trace) :
    e.isHash = false ∨ ∃ j, j < 100 ∧ e ∈ (h buf len j).1 := by
  unfold bench_trial at he
  rcases Prog.mem_trace_bind _ _ _ _ he with he | ⟨_, -, he⟩
  · exact Or.inl (printf_mem _ _ _ _ he)
  rcases Prog.mem_trace_bind _ _ _ _ he with he | ⟨_, -, he⟩
  · exact Or.inl (clock_mem _ _ he)
  rcases Prog.mem_trace_bind _ _ _ _ he with he | ⟨_, -, he⟩
  · obtain ⟨t, rfl⟩ := bench_spin_mem _ _ _ he
    exact Or.inl rfl
  rcases Prog.mem_trace_bind _ _ _ _ he with he | ⟨start, -, he⟩
  · exact Or.inl (clock_mem _ _ he)
  rcases Prog.mem_trace_bind _ _ _ _ he with he | ⟨⟨cnt, r⟩, -, he⟩
  · exact bench_timed_mem _ _ _ _ _ _ _ _ _ he
  simp only at he
  have tail : ∀ c, e ∈ ((do
      let span ← clock_span start
      pure (⟨cnt, r, ((Dbl.ofInt span).div (Dbl.ofInt CPS)).div (Dbl.ofNat cnt)⟩ : Sample)
        : Prog Sample) c).trace → e.isHash = false := by
    intro c hc
    rcases Prog.mem_trace_bind _ _ _ _ hc with hc | ⟨_, -, hc⟩
    · unfold clock_span at hc
      rcases Prog.mem_trace_bind _ _ _ _ hc with hc | ⟨_, -, hc⟩
      · exact clock_mem _ _ hc
      · exact (pure_mem _ _ _ hc).elim
    · exact (pure_mem _ _ _ hc).elim
  by_cases hr : r = 0
  · simp only [hr, if_true] at he
    rcases Prog.mem_trace_bind _ _ _ _ he with he | ⟨_, -, he⟩
    · exact Or.inl (printf_mem _ _ _ _ he)
    · exact Or.inl (tail _ (by simpa [hr] using he))
  · simp only [hr, if_false] at he
    rcases Prog.mem_trace_bind _ _ _ _ he with he | ⟨_, -, he⟩
    · exact (pure_mem _ _ _ he).elim
    · exact Or.inl (tail _ he)

theorem bench_trials_mem (CPS : Int) (h : Ptr → Nat → Nat → Traced Nat) (name : String)
    (buf : Ptr) (len n i : Nat) (fastest : Dbl) (clk : List Int) (e : Event)
    (he : e ∈ (bench_trials CPS h name buf len n i fastest clk).trace) :
    e.isHash = false ∨ ∃ j, j < 100 ∧ e ∈ (h buf len j).1 := by
  induction n generalizing i fastest clk with
  | zero => exact (pure_mem _ _ _ he).elim
  | succ n ih =>
      simp only [bench_trials] at he
      rcases Prog.mem_trace_bind _ _ _ _ he with he | ⟨_, -, he⟩
      · exact bench_trial_mem _ _ _ _ _ _ _ _ he
      rcases Prog.mem_trace_bind _ _ _ _ he with he | ⟨_, -, he⟩
      · exact Or.inl (printf_mem _ _ _ _ he)
      · exact ih _ _ _ he

/-- Every call that `bench_xxh` makes is a `printf`, a `clock` or a call made by
`h(buf, len, j)` for some `j < 100`. -/
theorem bench_xxh_mem (CPS : Int) (h : Ptr → Nat → Nat → Traced Nat) (name : String)
    (buf : Ptr) (len : Nat) (clk : List Int) (e : Event)
    (he : e ∈ (bench_xxh CPS h name buf len clk).trace) :
    e.isHash = false ∨ ∃ j, j < 100 ∧ e ∈ (h buf len j).1 := by
  unfold bench_xxh at he
  rcases Prog.mem_trace_bind _ _ _ _ he with he | ⟨_, -, he⟩
  · exact Or.inl (printf_mem _ _ _ _ he)
  rcases Prog.mem_trace_bind _ _ _ _ he with he | ⟨_, -, he⟩
  · exact bench_trials_mem _ _ _ _ _ _ _ _ _ _ he
  · exact Or.inl (printf_mem _ _ _ _ he)

/-- Every hash call that `bench` makes is the call `bench_call` of its scenario, for some
seed below 100. -/
theorem bench_mem (P : HashProvider) (CPS : Int) (block : List Nat) (alg : xxh_alg_enum)
    (clk : List Int) (e : Event)
    (he : e ∈ (bench P CPS (some block) alg clk).trace) (hh : e.isHash = true) :
    ∃ j, j < 100 ∧ e = bench_call block alg j := by
  unfold bench at he
  rcases Prog.mem_trace_bind _ _ _ _ he with he | ⟨_, -, he⟩
  · simp only [malloc, List.mem_singleton] at he
    rw [he] at hh; cases hh
  simp only at he
  rcases Prog.mem_trace_bind _ _ _ _ he with he | ⟨_, -, he⟩
  · have := printf_mem _ _ _ _ he
    rw [this] at hh; cases hh
  cases alg <;> simp only at he
  all_goals
    rcases Prog.mem_trace_bind _ _ _ _ he with he | ⟨_, -, he⟩
    · rcases bench_xxh_mem _ _ _ _ _ _ _ he with h0 | ⟨j, hj, hmem⟩
      · rw [h0] at hh; cases hh
      · refine ⟨j, hj, ?_⟩
        simpa [bench_xxh32, bench_xxh64, Ptr.add, bench_call, XXH32, XXH64, Traced.bind_def,
          Traced.pure_def] using hmem
    · rcases Prog.mem_trace_bind _ _ _ _ he with he | ⟨_, -, he⟩
      · simp only [free, List.mem_singleton] at he
        rw [he] at hh; cases hh
      · exact (pure_mem _ _ _ he).elim

/-! ## The benchmark payload -/

theorem Prog.mem_trace_bind_left {α β : Type} (m : Prog α) (f : α → Prog β) (c : List Int)
    (e : Event) (h : e ∈ (m c).trace) : e ∈ ((m >>= f) c).trace := by
  simp only [Prog.bind_apply, Prog.bind]
  cases (m c).status <;> simp [h]

theorem Prog.mem_trace_bind_right {α β : Type} (m : Prog α) (f : α → Prog β) (c : List Int)
    (a : α) (e : Event) (hs : (m c).status = .done a) (h : e ∈ (f a (m c).clk).trace) :
    e ∈ ((m >>= f) c).trace := by
  simp only [Prog.bind_apply, Prog.bind, hs]
  simp [h]

/-- A trial whose first check of the timed loop finds the second not yet elapsed makes the
calls of `h(buf, len, 0)`. -/
theorem bench_trial_first_call (CPS : Int) (h : Ptr → Nat → Nat → Traced Nat) (name : String)
    (buf : Ptr) (len i : Nat) (s0 t1 start t : Int) (rest : List Int)
    (h1 : t1 ≠ s0) (h2 : t - start < CPS) (e : Event) (he : e ∈ (h buf len 0).1) :
    e ∈ (bench_trial CPS h name buf len i (s0 :: t1 :: start :: t :: rest)).trace := by
  unfold bench_trial
  refine Prog.mem_trace_bind_right _ _ _ () e rfl ?_
  refine Prog.mem_trace_bind_right _ _ _ s0 e rfl ?_
  refine Prog.mem_trace_bind_right _ _ _ () e (by simp [clock, printf, bench_spin, h1]) ?_
  have hc : (bench_spin s0 (clock (printf "%1i-%-17.17s : %10u ->\r"
      [.int i, .str name, .uint (len % 2 ^ 32)] (s0 :: t1 :: start :: t :: rest)).clk).clk).clk
      = start :: t :: rest := by
    simp [clock, printf, bench_spin, h1]
  rw [hc]
  refine Prog.mem_trace_bind_right _ _ _ start e rfl ?_
  refine Prog.mem_trace_bind_left _ _ _ e ?_
  simp only [clock, bench_timed, h2, if_true, List.mem_cons, List.mem_append]
  right; left
  rw [bench_batch_trace]
  simp only [List.mem_flatten, List.mem_map, List.mem_range]
  exact ⟨(h buf len 0).1, ⟨0, by decide, rfl⟩, he⟩

theorem bench_xxh_first_call (CPS : Int) (h : Ptr → Nat → Nat → Traced Nat) (name : String)
    (buf : Ptr) (len : Nat) (s0 t1 start t : Int) (rest : List Int)
    (h1 : t1 ≠ s0) (h2 : t - start < CPS) (e : Event) (he : e ∈ (h buf len 0).1) :
    e ∈ (bench_xxh CPS h name buf len (s0 :: t1 :: start :: t :: rest)).trace := by
  unfold bench_xxh
  refine Prog.mem_trace_bind_right _ _ _ () e rfl ?_
  refine Prog.mem_trace_bind_left _ _ _ e ?_
  have hk : g_iters + 1 - 1 = 2 + 1 := rfl
  rw [hk]
  simp only [bench_trials]
  refine Prog.mem_trace_bind_left _ _ _ e ?_
  exact bench_trial_first_call CPS h name buf len 1 s0 t1 start t rest h1 h2 e he

/-- A run of `bench` whose first check of the timed loop finds the second not yet elapsed
makes the hash call of its scenario with seed 0. -/
theorem bench_first_call (P : HashProvider) (CPS : Int) (block : List Nat)
    (alg : xxh_alg_enum) (s0 t1 start t : Int) (rest : List Int)
    (h1 : t1 ≠ s0) (h2 : t - start < CPS) :
    bench_call block alg 0
      ∈ (bench P CPS (some block) alg (s0 :: t1 :: start :: t :: rest)).trace := by
  unfold bench
  refine Prog.mem_trace_bind_right _ _ _ () _ rfl ?_
  simp only
  refine Prog.mem_trace_bind_right _ _ _ () _ rfl ?_
  cases alg <;> simp only <;> refine Prog.mem_trace_bind_left _ _ _ _ ?_ <;>
    exact bench_xxh_first_call CPS _ _ _ _ s0 t1 start t rest h1 h2 _
      (by simp [bench_call, bench_xxh32, bench_xxh64, XXH32, XXH64, Traced.bind_def,
        Traced.pure_def, Ptr.add])

theorem memset_read (block : List Nat) (c n k : Nat) (hk : k ≤ n) :
    (⟨memset block c n, k⟩ : Ptr).read n
      = List.replicate (n - k) c ++ (block.drop n).take k := by
  simp only [Ptr.read, memset]
  rw [List.drop_append_of_le_length (by simpa using hk), List.drop_replicate,
    List.take_append_eq_append_take]
  simp only [List.length_replicate]
  rw [List.take_of_length_le (by simp)]
  congr 2
  omega

/-- C7 (what the code does): in each of the four scenarios of `bench`, every hash call is
made on the slice of `g_bufsz = 102400` bytes that starts at the scenario's offset (0, 1,
0, 3) of the block that `malloc(g_bufsz+3)` returned, after `memset(buf, 0x5A, g_bufsz)`,
and such a call is made as soon as the first check of the timed loop finds the second not
yet elapsed.  At offset 0 every byte of the slice is `0x5A`.  At offset 1 the last byte of
the slice, and at offset 3 its last three bytes, are the bytes of the block that `memset`
did not reach: they hold whatever the block held when `malloc` returned it. -/
theorem bench_payload (P : HashProvider) (CPS : Int) (block : List Nat) (alg : xxh_alg_enum)
    (clk : List Int) (hlen : block.length = g_bufsz + 3) :
    (∀ e ∈ (bench P CPS (some block) alg clk).trace, e.isHash = true →
        ∃ j, j < 100 ∧ e = bench_call block alg j)
      ∧ (∀ (s0 t1 start t : Int) (rest : List Int), t1 ≠ s0 → t - start < CPS →
          bench_call block alg 0
            ∈ (bench P CPS (some block) alg (s0 :: t1 :: start :: t :: rest)).trace)
      ∧ (∀ j, bench_call block .xxh_alg_32 j = .XXH32 ⟨memset block 0x5A g_bufsz, 0⟩ g_bufsz j
          ∧ bench_call block .xxh_alg_32u j = .XXH32 ⟨memset block 0x5A g_bufsz, 1⟩ g_bufsz j
          ∧ bench_call block .xxh_alg_64 j = .XXH64 ⟨memset block 0x5A g_bufsz, 0⟩ g_bufsz j
          ∧ bench_call block .xxh_alg_64u j = .XXH64 ⟨memset block 0x5A g_bufsz, 3⟩ g_bufsz j)
      ∧ g_bufsz = 102400
      ∧ (⟨memset block 0x5A g_bufsz, 0⟩ : Ptr).read g_bufsz = List.replicate g_bufsz 0x5A
      ∧ (⟨memset block 0x5A g_bufsz, 1⟩ : Ptr).read g_bufsz
          = List.replicate (g_bufsz - 1) 0x5A ++ (block.drop g_bufsz).take 1
      ∧ (⟨memset block 0x5A g_bufsz, 3⟩ : Ptr).read g_bufsz
          = List.replicate (g_bufsz - 3) 0x5A ++ (block.drop g_bufsz).take 3
      ∧ ((block.drop g_bufsz).take 1).length = 1
      ∧ ((block.drop g_bufsz).take 3).length = 3 := by
  refine ⟨fun e he hh => bench_mem P CPS block alg clk e he hh,
    fun s0 t1 start t rest h1 h2 => bench_first_call P CPS block alg s0 t1 start t rest h1 h2,
    fun j => ⟨rfl, rfl, rfl, rfl⟩, rfl, ?_, ?_, ?_, ?_, ?_⟩
  · rw [memset_read block 0x5A g_bufsz 0 (Nat.zero_le _)]
    simp
  · exact memset_read block 0x5A g_bufsz 1 (by decide)
  · exact memset_read block 0x5A g_bufsz 3 (by decide)
  · simp [List.length_take, List.length_drop, hlen]
  · simp [List.length_take, List.length_drop, hlen]

/-- On a block that `malloc` returned filled with zeros, with `CLOCKS_PER_SEC = 10` and the
readings 0, 1, 1, 2, the scenario `32u` calls `XXH32` with seed 0 on a payload that ends with
a zero byte. -/
theorem bench_payload_witness :
    Event.XXH32 ⟨memset (List.replicate (g_bufsz + 3) 0) 0x5A g_bufsz, 1⟩ g_bufsz 0
        ∈ (bench sumProvider 10 (some (List.replicate (g_bufsz + 3) 0)) .xxh_alg_32u
            [0, 1, 1, 2]).trace
      ∧ (⟨memset (List.replicate (g_bufsz + 3) 0) 0x5A g_bufsz, 1⟩ : Ptr).read g_bufsz
        = List.replicate (g_bufsz - 1) 0x5A ++ [0] :=
  ⟨(bench_payload sumProvider 10 (List.replicate (g_bufsz + 3) 0) .xxh_alg_32u []
      (by simp)).2.1 0 1 1 2 [] (by decide) (by decide),
    (bench_payload sumProvider 10 (List.replicate (g_bufsz + 3) 0) .xxh_alg_32u []
      (by simp)).2.2.2.2.2.1.trans (by simp [List.drop_replicate, List.take_replicate])⟩

/-! ## The dispatcher -/

theorem main_of_ne (P : HashProvider) (CPS : Int) (heap : Option (List Nat))
    (argv : List String) (h : argv.length ≠ 2) :
    main P CPS heap argv = usage (argv.getD 0 "") := by
  simp [main, h]

theorem usage_run (exename : String) (clk : List Int) :
    usage exename clk = ⟨.done 1, usage_trace exename, clk⟩ := by
  simp [usage, usage_trace, Prog.bind_apply, Prog.bind, printf, Prog.pure_apply]

theorem bind_pure_zero_status {α : Type} (m : Prog α) (clk : List Int) :
    ((m >>= fun _ => (pure 0 : Prog Int)) clk).status ≠ .done 1 := by
  simp only [Prog.bind_apply, Prog.bind, Prog.pure_apply]
  cases (m clk).status <;> simp

theorem bind_pure_zero_done {α : Type} (m : Prog α) (clk : List Int) (a : α)
    (tr : List Event) (c' : List Int) (h : m clk = ⟨.done a, tr, c'⟩) :
    (m >>= fun _ => (pure 0 : Prog Int)) clk = ⟨.done 0, tr, c'⟩ := by
  rw [Prog.bind_of_done m _ clk a tr c' h]
  simp [Prog.pure_apply]

theorem bind_pure_zero_trace {α : Type} (m : Prog α) (clk : List Int) :
    ((m >>= fun _ => (pure 0 : Prog Int)) clk).trace = (m clk).trace := by
  simp only [Prog.bind_apply, Prog.bind, Prog.pure_apply]
  cases (m clk).status <;> simp

theorem main_check (P : HashProvider) (CPS : Int) (heap : Option (List Nat)) (exe : String) :
    main P CPS heap [exe, "check"] = check P >>= fun _ => pure 0 := by
  simp [main]

theorem main_bench (P : HashProvider) (CPS : Int) (heap : Option (List Nat)) (exe : String)
    (alg : xxh_alg_enum) :
    main P CPS heap [exe, alg_arg alg] = bench P CPS heap alg >>= fun _ => pure 0 := by
  cases alg <;> simp [main, alg_arg]

theorem main_other (P : HashProvider) (CPS : Int) (heap : Option (List Nat))
    (exe param : String) (h : param ∉ ["check", "32", "32u", "64", "64u"]) :
    main P CPS heap [exe, param] = usage exe := by
  simp only [List.mem_cons, List.mem_singleton, List.not_mem_nil, or_false, not_or] at h
  simp [main, h]

/-- C8: `main` returns the failure status 1 exactly when the invocation does not have exactly
one argument after the program name or that argument is none of `check`, `32`, `32u`, `64`,
`64u` (compared exactly); it then makes the calls of `usage` and no other call.  Otherwise
it runs exactly one driver, `check` for `check` and `bench` with the scenario of the
argument otherwise; its calls are the calls of that driver, and when the driver returns,
whatever it returns, `main` returns 0.  Every hash call of the scenario `32` is `XXH32` at
offset 0 of the buffer, of `32u` `XXH32` at offset 1, of `64` `XXH64` at offset 0, of `64u`
`XXH64` at offset 3, on `g_bufsz` bytes. -/
theorem main_dispatch (P : HashProvider) (CPS : Int) (heap : Option (List Nat))
    (argv : List String) (clk : List Int) :
    ((main P CPS heap argv clk).status = .done 1
        ↔ ¬ (argv.length = 2 ∧ argv.getD 1 "" ∈ ["check", "32", "32u", "64", "64u"]))
      ∧ (¬ (argv.length = 2 ∧ argv.getD 1 "" ∈ ["check", "32", "32u", "64", "64u"]) →
          main P CPS heap argv clk = ⟨.done 1, usage_trace (argv.getD 0 ""), clk⟩)
      ∧ (∀ exe, main P CPS heap [exe, "check"] = check P >>= fun _ => pure 0)
      ∧ (∀ exe alg, main P CPS heap [exe, alg_arg alg] = bench P CPS heap alg >>= fun _ => pure 0)
      ∧ (alg_arg .xxh_alg_32 = "32" ∧ alg_arg .xxh_alg_32u = "32u"
          ∧ alg_arg .xxh_alg_64 = "64" ∧ alg_arg .xxh_alg_64u = "64u")
      ∧ (∀ exe, (main P CPS heap [exe, "check"] clk).trace = (check P clk).trace
          ∧ ∀ tr c', check P clk = ⟨.done (), tr, c'⟩ →
              main P CPS heap [exe, "check"] clk = ⟨.done 0, tr, c'⟩)
      ∧ (∀ exe alg, (main P CPS heap [exe, alg_arg alg] clk).trace
            = (bench P CPS heap alg clk).trace
          ∧ ∀ v tr c', bench P CPS heap alg clk = ⟨.done v, tr, c'⟩ →
              main P CPS heap [exe, alg_arg alg] clk = ⟨.done 0, tr, c'⟩)
      ∧ (∀ exe alg block, ∀ e ∈ (main P CPS (some block) [exe, alg_arg alg] clk).trace,
          e.isHash = true → ∃ j, j < 100 ∧ e = bench_call block alg j)
      ∧ (∀ block j,
          bench_call block .xxh_alg_32 j = .XXH32 ⟨memset block 0x5A g_bufsz, 0⟩ g_bufsz j
          ∧ bench_call block .xxh_alg_32u j = .XXH32 ⟨memset block 0x5A g_bufsz, 1⟩ g_bufsz j
          ∧ bench_call block .xxh_alg_64 j = .XXH64 ⟨memset block 0x5A g_bufsz, 0⟩ g_bufsz j
          ∧ bench_call block .xxh_alg_64u j
              = .XXH64 ⟨memset block 0x5A g_bufsz, 3⟩ g_bufsz j) := by
  have hinvalid : ¬ (argv.length = 2 ∧ argv.getD 1 "" ∈ ["check", "32", "32u", "64", "64u"]) →
      main P CPS heap argv clk = ⟨.done 1, usage_trace (argv.getD 0 ""), clk⟩ := by
    intro hv
    by_cases hlen : argv.length = 2
    · obtain ⟨exe, param, rfl⟩ := List.length_eq_two.1 hlen
      have hp : param ∉ ["check", "32", "32u", "64", "64u"] := by
        intro hp
        exact hv ⟨rfl, by simpa using hp⟩
      rw [main_other P CPS heap exe param hp, usage_run]
      simp
    · rw [main_of_ne P CPS heap argv hlen, usage_run]
  have hvalid : (argv.length = 2 ∧ argv.getD 1 "" ∈ ["check", "32", "32u", "64", "64u"]) →
      (main P CPS heap argv clk).status ≠ .done 1 := by
    rintro ⟨hlen, hp⟩
    obtain ⟨exe, param, rfl⟩ := List.length_eq_two.1 hlen
    simp only [List.getD_cons_succ, List.getD_cons_zero, List.mem_cons, List.mem_singleton,
      List.not_mem_nil, or_false] at hp
    rcases hp with rfl | rfl | rfl | rfl | rfl
    · rw [main_check]; exact bind_pure_zero_status _ _
    · rw [show main P CPS heap [exe, "32"] = _ from main_bench P CPS heap exe .xxh_alg_32]
      exact bind_pure_zero_status _ _
    · rw [show main P CPS heap [exe, "32u"] = _ from main_bench P CPS heap exe .xxh_alg_32u]
      exact bind_pure_zero_status _ _
    · rw [show main P CPS heap [exe, "64"] = _ from main_bench P CPS heap exe .xxh_alg_64]
      exact bind_pure_zero_status _ _
    · rw [show main P CPS heap [exe, "64u"] = _ from main_bench P CPS heap exe .xxh_alg_64u]
      exact bind_pure_zero_status _ _
  refine ⟨⟨?_, ?_⟩, hinvalid, main_check P CPS heap, main_bench P CPS heap,
    ⟨rfl, rfl, rfl, rfl⟩, ?_, ?_, ?_, fun _ _ => ⟨rfl, rfl, rfl, rfl⟩⟩
  · intro hs hv
    exact hvalid hv hs
  · intro hv
    rw [hinvalid hv]
  · intro exe
    rw [main_check]
    exact ⟨bind_pure_zero_trace _ _, fun tr c' h => bind_pure_zero_done _ _ _ _ _ h⟩
  · intro exe alg
    rw [main_bench]
    exact ⟨bind_pure_zero_trace _ _, fun v tr c' h => bind_pure_zero_done _ _ _ _ _ h⟩
  · intro exe alg block e he hh
    rw [main_bench, bind_pure_zero_trace] at he
    exact bench_mem P CPS block alg clk e he hh

/-- An argument in the wrong case is not recognised: `main` prints the usage and returns 1;
with no argument at all it does the same. -/
theorem main_dispatch_witness :
    main sumProvider 10 none ["xxhbench", "Check"] []
        = ⟨.done 1, usage_trace "xxhbench", []⟩
      ∧ main sumProvider 10 none ["xxhbench"] [] = ⟨.done 1, usage_trace "xxhbench", []⟩ :=
  ⟨(main_dispatch sumProvider 10 none ["xxhbench", "Check"] []).2.1 (by decide),
    (main_dispatch sumProvider 10 none ["xxhbench"] []).2.1 (by decide)⟩

theorem bench_trials_done_inv (CPS : Int) (h : Ptr → Nat → Nat → Traced Nat) (name : String)
    (buf : Ptr) (len n i : Nat) (fastest : Dbl) (clk : List Int) (F : Dbl) (tr : List Event)
    (c' : List Int)
    (hrun : bench_trials CPS h name buf len (n + 1) i fastest clk = ⟨.done F, tr, c'⟩) :
    ∃ s tr1 c1 tr2, bench_trial CPS h name buf len i clk = ⟨.done s, tr1, c1⟩
      ∧ bench_trials CPS h name buf len n (i + 1) (fastest_update fastest s.times) c1
          = ⟨.done F, tr2, c'⟩ := by
  simp only [bench_trials] at hrun
  obtain ⟨s, tr1, c1, trA, h1, hA, -⟩ := Prog.bind_done_inv _ _ _ _ _ _ hrun
  obtain ⟨_, trp, cp, tr2, hp, hB, -⟩ := Prog.bind_done_inv _ _ _ _ _ _ hA
  simp only [printf, Run.mk.injEq] at hp
  obtain ⟨-, -, rfl⟩ := hp
  exact ⟨s, tr1, c1, tr2, h1, hB⟩

/-- When `bench_xxh` returns, its three trials have returned, each started on the readings
that the one before left. -/
theorem bench_xxh_done_inv (CPS : Int) (h : Ptr → Nat → Nat → Traced Nat) (name : String)
    (buf : Ptr) (len : Nat) (clk : List Int)
    (hret : (bench_xxh CPS h name buf len clk).status = .done ()) :
    ∃ (s1 s2 s3 : Sample) (tr1 tr2 tr3 : List Event) (c1 c2 c3 : List Int),
      bench_trial CPS h name buf len 1 clk = ⟨.done s1, tr1, c1⟩
      ∧ bench_trial CPS h name buf len 2 c1 = ⟨.done s2, tr2, c2⟩
      ∧ bench_trial CPS h name buf len 3 c2 = ⟨.done s3, tr3, c3⟩ := by
  have hrun := Run.eq_mk_of _ _ _ hret rfl
  unfold bench_xxh at hrun
  obtain ⟨_, trp, cp, trA, hp, hA, -⟩ := Prog.bind_done_inv _ _ _ _ _ _ hrun
  simp only [printf, Run.mk.injEq] at hp
  obtain ⟨-, -, rfl⟩ := hp
  obtain ⟨F, trT, cT, trB, hT, -, -⟩ := Prog.bind_done_inv _ _ _ _ _ _ hA
  have hk : g_iters + 1 - 1 = 0 + 1 + 1 + 1 := rfl
  rw [hk] at hT
  obtain ⟨s1, tr1, c1, _, h1, hT2⟩ := bench_trials_done_inv _ _ _ _ _ _ _ _ _ _ _ _ hT
  obtain ⟨s2, tr2, c2, _, h2, hT3⟩ := bench_trials_done_inv _ _ _ _ _ _ _ _ _ _ _ _ hT2
  obtain ⟨s3, tr3, c3, _, h3, -⟩ := bench_trials_done_inv _ _ _ _ _ _ _ _ _ _ _ _ hT3
  exact ⟨s1, s2, s3, tr1, tr2, tr3, c1, c2, c3, h1, h2, h3⟩

/-- For a provider that meets the contract, the three comparisons of a vector of `check32`
are equal as soon as the one-shot one is. -/
theorem check32_list_ok (P : HashProvider) (h32 : P.Contract32) (buf : Ptr)
    (len seed truth : Nat) :
    (∀ c ∈ check32_list P buf len seed truth, c.1.2 = c.2)
      ↔ (check32_oneshot P buf len seed).2 = truth := by
  simp [check32_list, check32_single_eq P h32, check32_bytes_eq P h32]

theorem check64_list_ok (P : HashProvider) (h64 : P.Contract64) (buf : Ptr)
    (len seed truth : Nat) :
    (∀ c ∈ check64_list P buf len seed truth, c.1.2 = c.2)
      ↔ (check64_oneshot P buf len seed).2 = truth := by
  simp [check64_list, check64_single_eq P h64, check64_bytes_eq P h64]

/-- For a provider that meets the contract, `check` returns exactly when the one-shot digests
of the sixteen vectors are the values of the table. -/
theorem check_done_iff_oneshot (P : HashProvider) (h32 : P.Contract32) (h64 : P.Contract64)
    (clk : List Int) :
    (check P clk).status = .done () ↔
      (P.XXH32 [] 0 % 2 ^ 32 = 0x02CC5D05
        ∧ P.XXH32 [] prime % 2 ^ 32 = 0x36B78AE7
        ∧ P.XXH32 ((check_buf (List.replicate BUFSZ 0)).take 1) 0 % 2 ^ 32 = 0xB85CBEE5
        ∧ P.XXH32 ((check_buf (List.replicate BUFSZ 0)).take 1) prime % 2 ^ 32 = 0xD5845D64
        ∧ P.XXH32 ((check_buf (List.replicate BUFSZ 0)).take 14) 0 % 2 ^ 32 = 0xE5AA0AB4
        ∧ P.XXH32 ((check_buf (List.replicate BUFSZ 0)).take 14) prime % 2 ^ 32 = 0x4481951D
        ∧ P.XXH32 ((check_buf (List.replicate BUFSZ 0)).take BUFSZ) 0 % 2 ^ 32 = 0x1F1AA412
        ∧ P.XXH32 ((check_buf (List.replicate BUFSZ 0)).take BUFSZ) prime % 2 ^ 32 = 0x498EC8E2)
      ∧ (P.XXH64 [] 0 % 2 ^ 64 = 0xEF46DB3751D8E999
        ∧ P.XXH64 [] prime % 2 ^ 64 = 0xAC75FDA2929B17EF
        ∧ P.XXH64 ((check_buf (List.replicate BUFSZ 0)).take 1) 0 % 2 ^ 64 = 0x4FCE394CC88952D8
        ∧ P.XXH64 ((check_buf (List.replicate BUFSZ 0)).take 1) prime % 2 ^ 64
            = 0x739840CB819FA723
        ∧ P.XXH64 ((check_buf (List.replicate BUFSZ 0)).take 14) 0 % 2 ^ 64 = 0xCFFA8DB881BC3A3D
        ∧ P.XXH64 ((check_buf (List.replicate BUFSZ 0)).take 14) prime % 2 ^ 64
            = 0x5B9611585EFCC9CB
        ∧ P.XXH64 ((check_buf (List.replicate BUFSZ 0)).take BUFSZ) 0 % 2 ^ 64
            = 0x0EAB543384F878AD
        ∧ P.XXH64 ((check_buf (List.replicate BUFSZ 0)).take BUFSZ) prime % 2 ^ 64
            = 0xCAA65939306F1E21) := by
  rw [check_done_iff P clk]
  simp only [check_list, List.forall_mem_append, check32_list_ok P h32, check64_list_ok P h64,
    check32_oneshot, check64_oneshot, Ptr.read, NULL, List.drop_zero, List.take_nil,
    List.drop_nil, List.take_zero]
  tauto

end XXHBench
